import Mathlib

/-!
# Quiz application: session reducer and report analytics

A shallow embedding of `src/context/QuizContext.js` (the `quizReducer` state machine and
the persistence effects of `QuizProvider`), of the analytics computed by
`src/components/ReportPage.js`, of the multi-select check of
`src/components/EnhancedQuestionCard.jsx` and of the effects of `src/components/QuizPage.js`
and `src/components/Timer.js`, followed by the properties proved about them.

Modelling conventions:

* a JavaScript `Set` is a list of pairwise distinct values in insertion order (`JSSet`);
* a JavaScript object used as a dictionary is a list of key/value entries with `get`/`set`
  (`JSObj`); only lookups are observed by the code, so the enumeration order of the keys is
  not part of the model;
* question indices and counters in the session state are integers (`Int`); the sums of
  stored times (`prev + 1` of `INCREMENT_TIME`, the `totalTime` of the report) are rounded
  to binary64 as JavaScript does (`binary64Int`); the steps of the timer and of the
  navigation (`timeRemaining - 1`, `currentQuestion + 1`, `currentQuestion - 1`) and the
  counts of questions are exact integer operations, as they are in binary64 for integers
  up to `2 ^ 53` in magnitude;
* `localStorage` is a dictionary from keys to stored texts, a stored text being classified
  by what `JSON.parse` makes of it (`StoredText`); writes always succeed;
* the effects of the components are functions from the state to what they dispatch; time is
  counted in ticks of the interval, not in seconds;
* JavaScript numbers that arise from a division are `JSNumber`: a rational (a binary64
  number), or one of `NaN`, `+Infinity`, `-Infinity`; the result of every arithmetic
  operation is rounded to binary64 (to nearest, ties to even, with gradual underflow and
  overflow to the infinities); the sign of zero is not modelled.
-/

namespace QuizApp

/-! ## JavaScript `Set` -/

/-- A JavaScript `Set`: distinct values, kept in insertion order. -/
structure JSSet (α : Type) where
  elems : List α
  nodup : elems.Nodup

namespace JSSet

variable {α : Type} [DecidableEq α]

instance : DecidableEq (JSSet α) := fun s t =>
  decidable_of_iff (s.elems = t.elems)
    ⟨fun h => by cases s; cases t; cases h; rfl, fun h => by rw [h]⟩

/-- The empty set, `new Set()`. -/
def empty : JSSet α := ⟨[], List.nodup_nil⟩

/-- The method `set.has(x)`. -/
def has (s : JSSet α) (x : α) : Bool := decide (x ∈ s.elems)

/-- The method `set.add(x)`: appends `x` unless it is already present. -/
def add (s : JSSet α) (x : α) : JSSet α :=
  if h : x ∈ s.elems then s
  else ⟨s.elems ++ [x], List.Nodup.append s.nodup (List.nodup_singleton x)
    (by
      intro a ha hb
      rw [List.mem_singleton] at hb
      exact h (hb ▸ ha))⟩

/-- The method `set.delete(x)`. -/
def delete (s : JSSet α) (x : α) : JSSet α :=
  ⟨s.elems.erase x, s.nodup.erase x⟩

/-- The constructor `new Set(iterable)`: adds the values of the iterable one by one. -/
def ofIterable (l : List α) : JSSet α := l.foldl add empty

/-- The property `set.size`. -/
def size (s : JSSet α) : Nat := s.elems.length

/-- The conversion `Array.from(set)` (also the spread `[...set]`). -/
def toArray (s : JSSet α) : List α := s.elems

end JSSet

/-! ## JavaScript objects used as dictionaries -/

/-- A JavaScript object used as a dictionary from keys `κ` to values `α`. -/
structure JSObj (κ : Type) (α : Type) where
  entries : List (κ × α)
deriving DecidableEq

namespace JSObj

variable {κ α : Type} [DecidableEq κ]

/-- The object literal `{}`. -/
def empty : JSObj κ α := ⟨[]⟩

/-- Lookup in a list of entries. -/
def getEntries : List (κ × α) → κ → Option α
  | [], _ => none
  | (k', v') :: rest, k => if k' = k then some v' else getEntries rest k

/-- Overwrite the entry of a key in a list of entries, or create it. -/
def setEntries : List (κ × α) → κ → α → List (κ × α)
  | [], k, v => [(k, v)]
  | (k', v') :: rest, k, v =>
    if k' = k then (k, v) :: rest else (k', v') :: setEntries rest k v

/-- The property read `obj[k]`; `none` stands for `undefined`. -/
def get (o : JSObj κ α) (k : κ) : Option α := getEntries o.entries k

/-- The object `{ ...obj, [k]: v }` (equally, `obj` after the assignment `obj[k] = v`). -/
def set (o : JSObj κ α) (k : κ) (v : α) : JSObj κ α := ⟨setEntries o.entries k v⟩

/-- The keys of the object, `Object.keys(obj)`. -/
def keys (o : JSObj κ α) : List κ := o.entries.map Prod.fst

end JSObj

/-! ## Binary64 rounding -/

/-- The integer nearest to `x`, the even one of the two when `x` lies half-way. -/
def roundHalfEven (x : ℚ) : ℤ :=
  if x - ⌊x⌋ < 1 / 2 then ⌊x⌋
  else if 1 / 2 < x - ⌊x⌋ then ⌊x⌋ + 1
  else if ⌊x⌋ % 2 = 0 then ⌊x⌋ else ⌊x⌋ + 1

/-- The exponent of the last place of the binary64 numbers around `x` (`x` non-zero): 52
below the exponent of `x`, and never below -1074. -/
def binary64Exponent (x : ℚ) : ℤ := max (Int.log 2 |x| - 52) (-1074)

/-- The rounding of a real result to binary64: to the nearest multiple of the last place,
ties to even. The result is not cut off at the largest binary64 number; see
`JSNumber.ofRat`. -/
def binary64 (x : ℚ) : ℚ :=
  if x = 0 then 0
  else (roundHalfEven (x / 2 ^ binary64Exponent x) : ℚ) * 2 ^ binary64Exponent x

/-- The rounding to binary64 of an integer result, as an integer: integers up to `2 ^ 53`
in magnitude are kept, larger ones are rounded to a multiple of a power of 2. -/
def binary64Int (n : Int) : Int := ⌊binary64 (n : ℚ)⌋

/-! ## Session state (`QuizContext.js`) -/

/-- An answer: a single choice, or the array of choices of a multi-select question. -/
inductive Answer where
  | single (choice : String)
  | multi (choices : List String)
deriving DecidableEq, Repr

/-- A question object, as delivered by the API (quiz) and as annotated in the results. -/
structure Question where
  question : String := ""
  category : Option String := none
  difficulty : Option String := none
  type : Option String := none
  mode : Option String := none
  correct_answer : Option Answer := none
  is_correct : Bool := false
  hint_used : Bool := false
  time_spent : Option Int := none
deriving DecidableEq, Repr

/-- The results payload (`response` of `submitQuiz`, `response.quiz` of `getResults`). -/
structure Results where
  score : Int
  total_questions : Int
  time_taken : Int := 0
  email : String := ""
  questions : List Question := []
deriving DecidableEq, Repr

/-- The state held by the reducer. -/
structure State where
  quizId : Option String
  email : String
  questions : List Question
  currentQuestion : Int
  answers : JSObj Int Answer
  visitedQuestions : JSSet Int
  attemptedQuestions : JSSet Int
  bookmarkedQuestions : JSSet Int
  reviewLaterQuestions : JSSet Int
  notes : JSObj Int String
  hintUsed : JSSet Int
  timeSpentPerQuestion : JSObj Int Int
  timeRemaining : Int
  quizStarted : Bool
  quizCompleted : Bool
  quizResults : Option Results
  loading : Bool
  error : Option String
deriving DecidableEq

/-- The constant `initialState`. -/
def initialState : State where
  quizId := none
  email := ""
  questions := []
  currentQuestion := 0
  answers := JSObj.empty
  visitedQuestions := JSSet.empty
  attemptedQuestions := JSSet.empty
  bookmarkedQuestions := JSSet.empty
  reviewLaterQuestions := JSSet.empty
  notes := JSObj.empty
  hintUsed := JSSet.empty
  timeSpentPerQuestion := JSObj.empty
  timeRemaining := 30 * 60
  quizStarted := false
  quizCompleted := false
  quizResults := none
  loading := false
  error := none

/-- The payload of `START_QUIZ`: the fields of the API response that the reducer reads. -/
structure StartPayload where
  quiz_id : Option String
  email : String
  questions : List Question
deriving DecidableEq

/-- The payload object of `LOAD_PERSISTED`; `none` is a component that is `undefined`. -/
structure PersistedPayload where
  bookmarked : Option (List Int) := none
  reviewLater : Option (List Int) := none
  notes : Option (JSObj Int String) := none
  timeSpent : Option (JSObj Int Int) := none
deriving DecidableEq

/-- The actions; `OTHER` is an action whose `type` matches no `case` of the reducer. -/
inductive Action where
  | SET_LOADING (payload : Bool)
  | SET_ERROR (payload : Option String)
  | START_QUIZ (payload : StartPayload)
  | SET_CURRENT_QUESTION (payload : Int)
  | SET_ANSWER (payload : Answer)
  | UPDATE_TIMER (payload : Int)
  | COMPLETE_QUIZ (payload : Results)
  | RESET_QUIZ
  | TOGGLE_BOOKMARK (payload : Int)
  | TOGGLE_REVIEW_LATER (payload : Int)
  | SET_NOTE (index : Int) (text : String)
  | INCREMENT_TIME (payload : Int)
  | SET_HINT_USED (payload : Int)
  | LOAD_PERSISTED (payload : Option PersistedPayload)
  | OTHER (type : String) (payload : Option Int)
deriving DecidableEq

/-- The body shared by `TOGGLE_BOOKMARK` and `TOGGLE_REVIEW_LATER`:
`const set = new Set(old); if (set.has(idx)) set.delete(idx); else set.add(idx);`. -/
def toggle (old : JSSet Int) (idx : Int) : JSSet Int :=
  let set := JSSet.ofIterable old.toArray
  if set.has idx then set.delete idx else set.add idx

/-- The reducer `quizReducer(state, action)`. -/
def quizReducer (state : State) : Action → State
  | .SET_LOADING payload => { state with loading := payload }
  | .SET_ERROR payload => { state with error := payload, loading := false }
  | .START_QUIZ payload =>
    { state with
      quizId := payload.quiz_id
      email := payload.email
      questions := payload.questions
      quizStarted := true
      loading := false
      error := none }
  | .SET_CURRENT_QUESTION payload =>
    let newVisited := (JSSet.ofIterable state.visitedQuestions.toArray).add payload
    { state with currentQuestion := payload, visitedQuestions := newVisited }
  | .SET_ANSWER payload =>
    let newAttempted :=
      (JSSet.ofIterable state.attemptedQuestions.toArray).add state.currentQuestion
    { state with
      answers := state.answers.set state.currentQuestion payload
      attemptedQuestions := newAttempted }
  | .UPDATE_TIMER payload => { state with timeRemaining := payload }
  | .COMPLETE_QUIZ payload => { state with quizCompleted := true, quizResults := some payload }
  | .RESET_QUIZ => initialState
  | .TOGGLE_BOOKMARK idx =>
    { state with bookmarkedQuestions := toggle state.bookmarkedQuestions idx }
  | .TOGGLE_REVIEW_LATER idx =>
    { state with reviewLaterQuestions := toggle state.reviewLaterQuestions idx }
  | .SET_NOTE index text => { state with notes := state.notes.set index text }
  | .INCREMENT_TIME idx =>
    let prev := (state.timeSpentPerQuestion.get idx).getD 0
    { state with
      timeSpentPerQuestion := state.timeSpentPerQuestion.set idx (binary64Int (prev + 1)) }
  | .SET_HINT_USED idx =>
    { state with hintUsed := (JSSet.ofIterable state.hintUsed.toArray).add idx }
  | .LOAD_PERSISTED payload =>
    let p := payload.getD {}
    { state with
      bookmarkedQuestions := JSSet.ofIterable (p.bookmarked.getD [])
      reviewLaterQuestions := JSSet.ofIterable (p.reviewLater.getD [])
      notes := p.notes.getD JSObj.empty
      timeSpentPerQuestion := p.timeSpent.getD JSObj.empty }
  | .OTHER _ _ => state

/-- The state after the actions of a list have been dispatched one after the other. -/
def dispatchAll (state : State) (actions : List Action) : State :=
  actions.foldl quizReducer state

/-! ## JavaScript numbers -/

/-- A JavaScript number: a rational (a binary64 number), `NaN`, `Infinity` or `-Infinity`. -/
inductive JSNumber where
  | fin (q : ℚ)
  | nan
  | posInf
  | negInf
deriving DecidableEq

namespace JSNumber

/-- The infinity with the sign of `q` (`q` non-zero). -/
def infOfSign (q : ℚ) : JSNumber := if 0 < q then posInf else negInf

/-- The number that a real result gives: its rounding to binary64, or an infinity when
the rounding reaches `2 ^ 1024` in magnitude. -/
def ofRat (x : ℚ) : JSNumber :=
  if (2 : ℚ) ^ 1024 ≤ binary64 x then posInf
  else if binary64 x ≤ -(2 : ℚ) ^ 1024 then negInf
  else fin (binary64 x)

/-- The operator `x / y`. -/
def div : JSNumber → JSNumber → JSNumber
  | fin a, fin b => if b = 0 then (if a = 0 then nan else infOfSign a) else ofRat (a / b)
  | fin _, posInf => fin 0
  | fin _, negInf => fin 0
  | posInf, fin b => if 0 ≤ b then posInf else negInf
  | negInf, fin b => if 0 ≤ b then negInf else posInf
  | _, _ => nan

/-- The operator `x * y`. -/
def mul : JSNumber → JSNumber → JSNumber
  | fin a, fin b => ofRat (a * b)
  | fin a, posInf => if a = 0 then nan else infOfSign a
  | fin a, negInf => if a = 0 then nan else infOfSign (-a)
  | posInf, fin b => if b = 0 then nan else infOfSign b
  | negInf, fin b => if b = 0 then nan else infOfSign (-b)
  | posInf, posInf => posInf
  | negInf, negInf => posInf
  | posInf, negInf => negInf
  | negInf, posInf => negInf
  | _, _ => nan

/-- The operator `x - y`. -/
def sub : JSNumber → JSNumber → JSNumber
  | fin a, fin b => ofRat (a - b)
  | fin _, posInf => negInf
  | fin _, negInf => posInf
  | posInf, fin _ => posInf
  | negInf, fin _ => negInf
  | posInf, negInf => posInf
  | negInf, posInf => negInf
  | _, _ => nan

/-- The function `Math.round`: the nearest integer, halves rounded towards `+Infinity`. -/
def round : JSNumber → JSNumber
  | fin q => fin (⌊q + 1 / 2⌋ : ℤ)
  | x => x

/-- The test `x > 0`. -/
def isPositive : JSNumber → Bool
  | fin q => decide (0 < q)
  | posInf => true
  | _ => false

/-- An integer as a number. -/
def ofInt (n : Int) : JSNumber := ofRat n

/-- A natural number as a number. -/
def ofNat (n : Nat) : JSNumber := ofRat n

end JSNumber

/-! ## Report analytics (`ReportPage.js`) -/

/-- The expression `s || dflt` for `s` a string or `undefined`: the empty string is falsy. -/
def orDefault (s : Option String) (dflt : String) : String :=
  match s with
  | some t => if t = "" then dflt else t
  | none => dflt

/-- The expression `s.split(':')[0]`: the segment of `s` before its first colon. -/
def firstSegment (s : String) : String :=
  String.mk (s.data.takeWhile (fun c => c ≠ ':'))

/-- The method `s.toLowerCase()`, modelled on the ASCII letters `A`-`Z`: the result is one of
`easy`, `medium`, `hard` for exactly the same strings as under the full Unicode mapping. -/
def toLowerCase (s : String) : String :=
  String.mk (s.data.map Char.toLower)

/-- The category key `(q.category || 'General').split(':')[0]`. -/
def categoryKey (q : Question) : String :=
  firstSegment (orDefault q.category "General")

/-- The difficulty key `(q.difficulty || '').toLowerCase()`. -/
def difficultyKey (q : Question) : String :=
  toLowerCase (orDefault q.difficulty "")

/-- The UTF-16 code units of a character. -/
def utf16Units (c : Char) : List Nat :=
  if c.toNat < 0x10000 then [c.toNat]
  else [0xD800 + (c.toNat - 0x10000) / 0x400, 0xDC00 + (c.toNat - 0x10000) % 0x400]

/-- The UTF-16 code units of a string. -/
def utf16 (s : String) : List Nat := s.data.flatMap utf16Units

/-- Lexicographic comparison of code unit sequences. -/
def lexLe : List Nat → List Nat → Bool
  | [], _ => true
  | _ :: _, [] => false
  | a :: as, b :: bs => if a < b then true else if b < a then false else lexLe as bs

/-- The method `array.sort()` on strings: ascending order of UTF-16 code units. -/
def sortStrings (l : List String) : List String :=
  l.insertionSort (fun a b => lexLe (utf16 a) (utf16 b) = true)

/-- The constant `difficulties`. -/
def difficulties : List String := ["easy", "medium", "hard"]

/-- A matrix cell `{ correct, total }`. -/
structure Cell where
  correct : Nat
  total : Nat
deriving DecidableEq, Repr

/-- The matrix object: category key, then difficulty, then cell. -/
abbrev Matrix := JSObj String (JSObj String Cell)

/-- The memo `categoryList`: the distinct category keys, sorted. -/
def categoryList (questions : List Question) : List String :=
  sortStrings (JSSet.ofIterable (questions.map categoryKey)).toArray

/-- The memo `matrix`: a zero cell for every category of the list and every difficulty. -/
def buildMatrix (categoryList : List String) : Matrix :=
  categoryList.foldl
    (fun matrix cat =>
      matrix.set cat (difficulties.foldl (fun row d => row.set d ⟨0, 0⟩) JSObj.empty))
    JSObj.empty

/-- The cell `matrix[cat][d]`, `none` when `matrix[cat]` or `matrix[cat][d]` is undefined. -/
def Matrix.cell (matrix : Matrix) (cat d : String) : Option Cell :=
  (matrix.get cat).bind (fun row => row.get d)

/-- The read of `matrix[cat][d]` in the accuracy memos, where `cat` ranges over the
category list the matrix was built from and `d` over `difficulties`, so that the cell
exists; the default stands for the unreachable case. -/
def Matrix.cellAt (matrix : Matrix) (cat d : String) : Cell :=
  (matrix.cell cat d).getD ⟨0, 0⟩

/-- The expression `tot ? Math.round((corr / tot) * 100) : 0`. -/
def accuracy (corr tot : Nat) : JSNumber :=
  if tot ≠ 0 then
    JSNumber.round (JSNumber.mul (JSNumber.div (JSNumber.ofNat corr) (JSNumber.ofNat tot))
      (JSNumber.fin 100))
  else JSNumber.fin 0

/-- The memo `difficultyAccuracy`, computed from the matrix as it is when the memo runs. -/
def difficultyAccuracy (categoryList : List String) (matrix : Matrix) :
    JSObj String JSNumber :=
  difficulties.foldl
    (fun acc d =>
      let sums := categoryList.foldl
        (fun (ct : Nat × Nat) cat =>
          (ct.1 + (matrix.cellAt cat d).correct, ct.2 + (matrix.cellAt cat d).total))
        (0, 0)
      acc.set d (accuracy sums.1 sums.2))
    JSObj.empty

/-- An entry `{ category, pct }` of `categoryAccuracy`. -/
structure CategoryPct where
  category : String
  pct : JSNumber
deriving DecidableEq

/-- The comparator `(a, b) => b.pct - a.pct` puts `a` after `b` when its result is positive;
the sort is stable. -/
def sortByPctDesc (l : List CategoryPct) : List CategoryPct :=
  l.insertionSort (fun a b => (JSNumber.sub b.pct a.pct).isPositive = false)

/-- The memo `categoryAccuracy`, computed from the matrix as it is when the memo runs. -/
def categoryAccuracy (categoryList : List String) (matrix : Matrix) : List CategoryPct :=
  sortByPctDesc (categoryList.map (fun cat =>
    let sums := difficulties.foldl
      (fun (ct : Nat × Nat) d =>
        (ct.1 + (matrix.cellAt cat d).correct, ct.2 + (matrix.cellAt cat d).total))
      (0, 0)
    { category := cat, pct := accuracy sums.1 sums.2 }))

/-- The values cached by the `useMemo` hooks of `ReportPage`. -/
structure ReportMemo where
  categoryList : List String
  matrix : Matrix
  difficultyAccuracy : JSObj String JSNumber
  categoryAccuracy : List CategoryPct
deriving DecidableEq

/-- The hooks of a render in which `questions` has changed: every memo is recomputed,
in the order of the source (the matrix is new and holds zeros when the accuracies are
computed). -/
def computeMemo (questions : List Question) : ReportMemo :=
  let categoryList := categoryList questions
  let matrix := buildMatrix categoryList
  { categoryList := categoryList
    matrix := matrix
    difficultyAccuracy := difficultyAccuracy categoryList matrix
    categoryAccuracy := categoryAccuracy categoryList matrix }

/-- The variables updated by the aggregation pass `questions.forEach(q => ...)`. -/
structure PassState where
  matrix : Matrix
  totalHints : Nat
  totalTime : Int
  timeCount : Nat
deriving DecidableEq

/-- The cell after `cell.total += 1; if (isCorrect) cell.correct += 1`. -/
def Cell.bump (cell : Cell) (isCorrect : Bool) : Cell :=
  { total := cell.total + 1
    correct := if isCorrect then cell.correct + 1 else cell.correct }

/-- The matrix after `matrix[cat][diff].total += 1; if (isCorrect) matrix[cat][diff].correct += 1`,
guarded by `if (matrix[cat] && matrix[cat][diff])`. -/
def bumpCell (matrix : Matrix) (cat diff : String) (isCorrect : Bool) : Matrix :=
  match matrix.get cat with
  | none => matrix
  | some row =>
    match row.get diff with
    | none => matrix
    | some cell => matrix.set cat (row.set diff (cell.bump isCorrect))

/-- One iteration of the aggregation pass, for the question `q`. -/
def passStep (st : PassState) (q : Question) : PassState :=
  let diff := difficultyKey q
  let cat := categoryKey q
  let matrix := bumpCell st.matrix cat diff q.is_correct
  let totalHints := if q.hint_used then st.totalHints + 1 else st.totalHints
  match q.time_spent with
  | some t =>
    if 0 < t then
      { matrix := matrix, totalHints := totalHints
        totalTime := binary64Int (st.totalTime + t), timeCount := st.timeCount + 1 }
    else
      { matrix := matrix, totalHints := totalHints
        totalTime := st.totalTime, timeCount := st.timeCount }
  | none =>
    { matrix := matrix, totalHints := totalHints
      totalTime := st.totalTime, timeCount := st.timeCount }

/-- The aggregation pass over all questions, starting from the given matrix object. -/
def aggregationPass (questions : List Question) (matrix : Matrix) : PassState :=
  questions.foldl passStep { matrix := matrix, totalHints := 0, totalTime := 0, timeCount := 0 }

/-- The sum of `total` over the cells of a row of the matrix. -/
def rowTotal (row : JSObj String Cell) : Nat :=
  (row.entries.map (fun e => e.2.total)).sum

/-- The sum of `total` over all the cells of the matrix. -/
def Matrix.totalSum (matrix : Matrix) : Nat :=
  (matrix.entries.map (fun e => rowTotal e.2)).sum

/-- The expression `Math.round((score / total_questions) * 100)`. -/
def percentage (detailedResults : Results) : JSNumber :=
  JSNumber.round (JSNumber.mul
    (JSNumber.div (JSNumber.ofInt detailedResults.score)
      (JSNumber.ofInt detailedResults.total_questions))
    (JSNumber.fin 100))

/-- What a render of `ReportPage` shows, and the matrix object it leaves behind. -/
structure ReportView where
  percentage : JSNumber
  difficultyAccuracy : JSObj String JSNumber
  categoryAccuracy : List CategoryPct
  totalHints : Nat
  timeCount : Nat
  avgTime : JSNumber
  matrix : Matrix
deriving DecidableEq

/-- The body of a render once the results are loaded, given the memoised values:
the accuracies shown are the memoised ones, the pass updates the memoised matrix. -/
def renderBody (memo : ReportMemo) (detailedResults : Results) : ReportView :=
  let pass := aggregationPass detailedResults.questions memo.matrix
  { percentage := percentage detailedResults
    difficultyAccuracy := memo.difficultyAccuracy
    categoryAccuracy := memo.categoryAccuracy
    totalHints := pass.totalHints
    timeCount := pass.timeCount
    avgTime :=
      if pass.timeCount ≠ 0 then
        JSNumber.round (JSNumber.div (JSNumber.ofInt pass.totalTime)
          (JSNumber.ofNat pass.timeCount))
      else JSNumber.fin 0
    matrix := pass.matrix }

/-- The render of `ReportPage` that follows the arrival of the results: `questions` is a
new array, so the memos are recomputed, then the body runs. -/
def ReportPage (detailedResults : Results) : ReportView :=
  renderBody (computeMemo detailedResults.questions) detailedResults

/-- The memoised values once a render has run: the pass of the render has updated the
memoised matrix object in place, the other memos are as they were. -/
def memoAfterRender (memo : ReportMemo) (view : ReportView) : ReportMemo :=
  { memo with matrix := view.matrix }

/-- A later render of `ReportPage` with the same `detailedResults`: `questions` is the same
array, so no memo is recomputed and the body runs on the memoised values left by the render
before. -/
def ReportPageAgain (detailedResults : Results) : ReportView :=
  renderBody
    (memoAfterRender (computeMemo detailedResults.questions) (ReportPage detailedResults))
    detailedResults

/-- The values of `time_spent` that are numbers greater than 0, in the order of the
questions. -/
def trackedTimes (questions : List Question) : List Int :=
  questions.filterMap (fun q =>
    match q.time_spent with
    | some t => if 0 < t then some t else none
    | none => none)

/-! ## Multi-select answers (`EnhancedQuestionCard.jsx`) -/

/-- The values that iterating `question.correct_answer` yields: the elements of an array,
the characters of a string, nothing when it is undefined. -/
def iterateAnswer : Option Answer → List String
  | some (.multi choices) => choices
  | some (.single choice) => choice.data.map (fun c => String.mk [c])
  | none => []

/-- The check `(userSet.size === correctSet.size) && [...correctSet].every(a => userSet.has(a))`
with `correctSet = new Set(question.correct_answer)` and `userSet = new Set(newSelected)`. -/
def allCorrect (question : Question) (newSelected : List String) : Bool :=
  let correctSet := JSSet.ofIterable (iterateAnswer question.correct_answer)
  let userSet := JSSet.ofIterable newSelected
  (userSet.size == correctSet.size) && correctSet.toArray.all (fun a => userSet.has a)

/-- The new selection of `handleMultiAnswer`: the answer is removed when selected, appended
otherwise. -/
def toggleSelection (prevSelected : List String) (answer : String) : List String :=
  if prevSelected.contains answer then prevSelected.filter (fun a => a ≠ answer)
  else prevSelected ++ [answer]

/-- The handler `handleMultiAnswer(answer)`: the new selection (passed to `onAnswerSelect`)
and the flag `allCorrect` behind the feedback. -/
def handleMultiAnswer (question : Question) (prevSelected : List String) (answer : String) :
    List String × Bool :=
  let newSelected := toggleSelection prevSelected answer
  (newSelected, allCorrect question newSelected)

/-! ## Effects of `QuizPage.js` and `Timer.js` -/

/-- The action `{ type: 'MARK_VISITED', payload: i }`: the reducer has no `case` for it. -/
def MARK_VISITED (i : Int) : Action := Action.OTHER "MARK_VISITED" (some i)

/-- The dispatch made by `handleQuestionVisit(questionIndex)`; the call of the remote API
that follows it does not touch the state. -/
def handleQuestionVisit (questionIndex : Int) : List Action := [MARK_VISITED questionIndex]

/-- The visit effect of `QuizPage`, run on mount and when the current question changes:
`if (questions.length > 0) handleQuestionVisit(currentQuestion)`. -/
def visitEffect (state : State) : List Action :=
  if state.questions.length > 0 then handleQuestionVisit state.currentQuestion else []

/-- What one firing of the interval of `QuizPage`'s time-tracking effect dispatches; the
effect sets no interval when `timeRemaining <= 0 || quizCompleted`. -/
def timeTrackingTick (state : State) : List Action :=
  if state.timeRemaining ≤ 0 ∨ state.quizCompleted = true then []
  else [Action.INCREMENT_TIME state.currentQuestion]

/-- A run of the `Timer` component: the session state and the number of calls of `onTimeUp`
made so far. -/
structure TimerRun where
  state : State
  timeUpCalls : Nat
deriving DecidableEq

/-- One run of the effect of `Timer` for the state: it calls `onTimeUp` and returns when
`timeRemaining <= 0`, and sets the interval otherwise. -/
def timerEffect (state : State) (timeUpCalls : Nat) : Nat :=
  if state.timeRemaining ≤ 0 then timeUpCalls + 1 else timeUpCalls

/-- The mount of `Timer`: the effect runs for the first time. -/
def timerMount (state : State) : TimerRun :=
  { state := state, timeUpCalls := timerEffect state 0 }

/-- One tick of `Timer`: the interval set by the last run of the effect fires and dispatches
`UPDATE_TIMER` with `timeRemaining - 1`; `timeRemaining` has changed, so the effect runs again
for the new state. Nothing fires when no interval is set. -/
def timerTick (run : TimerRun) : TimerRun :=
  if run.state.timeRemaining ≤ 0 then run
  else
    let state := quizReducer run.state (Action.UPDATE_TIMER (run.state.timeRemaining - 1))
    { state := state, timeUpCalls := timerEffect state run.timeUpCalls }

/-- The run after `k` ticks. -/
def timerTicks : Nat → TimerRun → TimerRun
  | 0, run => run
  | k + 1, run => timerTicks k (timerTick run)

/-! ## Navigation (`QuizPage.js`, `QuestionNav.js`) -/

/-- The dispatch of `handleQuestionNavigation(questionIndex)`. -/
def handleQuestionNavigation (questionIndex : Int) : List Action :=
  [Action.SET_CURRENT_QUESTION questionIndex]

/-- The dispatch of `handleNextQuestion()` for the state of the render: under the guard
`currentQuestion < questions.length - 1`, `SET_CURRENT_QUESTION` with `currentQuestion + 1`;
the call of the remote API before it does not touch the state. -/
def handleNextQuestion (state : State) : List Action :=
  if state.currentQuestion < (state.questions.length : Int) - 1 then
    [Action.SET_CURRENT_QUESTION (state.currentQuestion + 1)]
  else []

/-- The dispatch of `handlePreviousQuestion()` for the state of the render: under the guard
`currentQuestion > 0`, `SET_CURRENT_QUESTION` with `currentQuestion - 1`. -/
def handlePreviousQuestion (state : State) : List Action :=
  if state.currentQuestion > 0 then
    [Action.SET_CURRENT_QUESTION (state.currentQuestion - 1)]
  else []

/-- The memo `filtered` of `QuestionNav`: the indices `0 .. questions.length - 1`, filtered
by the chosen filter; each of them is a button that calls `onQuestionSelect(i)`. -/
def filtered (state : State) (filter : String) : List Int :=
  let all := (List.range state.questions.length).map Int.ofNat
  if filter = "answered" then all.filter (fun i => state.attemptedQuestions.has i)
  else if filter = "unanswered" then all.filter (fun i => !state.attemptedQuestions.has i)
  else if filter = "visited" then all.filter (fun i => state.visitedQuestions.has i)
  else if filter = "bookmarked" then all.filter (fun i => state.bookmarkedQuestions.has i)
  else if filter = "review" then all.filter (fun i => state.reviewLaterQuestions.has i)
  else all

/-! ## Persistence effects of `QuizProvider` -/

/-- A string held by `localStorage`, by what `JSON.parse` makes of it: the empty string, a
non-empty text that is not JSON, or the JSON text of an array of indices, of an object of
strings, of an object of numbers. The persist effect writes texts of the last three kinds;
the model takes `JSON.parse(JSON.stringify(v))` to give back `v` for these values. A text
that is valid JSON of another shape, which the typed state cannot hold, is not represented. -/
inductive StoredText where
  | empty
  | invalid (text : String)
  | indexArray (items : List Int)
  | textObject (o : JSObj Int String)
  | numberObject (o : JSObj Int Int)
deriving DecidableEq

/-- The store `localStorage`: `getItem` is `get`, `setItem` is `set` (a write that throws
is not modelled). -/
abbrev Storage := JSObj String StoredText

/-- The result of `x ? JSON.parse(x) : dflt` where a value of type `α` is expected. -/
inductive Parsed (α : Type) where
  | value (a : α)
  | syntaxError
  | otherShape
deriving DecidableEq

/-- The expression `b ? JSON.parse(b) : []` for the item `b`: the default for `null` and for
the empty string, an exception for a text that is not JSON. -/
def parseIndexArray : Option StoredText → Parsed (List Int)
  | none => Parsed.value []
  | some StoredText.empty => Parsed.value []
  | some (StoredText.invalid _) => Parsed.syntaxError
  | some (StoredText.indexArray items) => Parsed.value items
  | some _ => Parsed.otherShape

/-- The expression `n ? JSON.parse(n) : {}` for the item of the notes. -/
def parseTextObject : Option StoredText → Parsed (JSObj Int String)
  | none => Parsed.value JSObj.empty
  | some StoredText.empty => Parsed.value JSObj.empty
  | some (StoredText.invalid _) => Parsed.syntaxError
  | some (StoredText.textObject o) => Parsed.value o
  | some (StoredText.numberObject o) =>
    if o.entries = [] then Parsed.value JSObj.empty else Parsed.otherShape
  | some _ => Parsed.otherShape

/-- The expression `t ? JSON.parse(t) : {}` for the item of the times. -/
def parseNumberObject : Option StoredText → Parsed (JSObj Int Int)
  | none => Parsed.value JSObj.empty
  | some StoredText.empty => Parsed.value JSObj.empty
  | some (StoredText.invalid _) => Parsed.syntaxError
  | some (StoredText.numberObject o) => Parsed.value o
  | some (StoredText.textObject o) =>
    if o.entries = [] then Parsed.value JSObj.empty else Parsed.otherShape
  | some _ => Parsed.otherShape

/-- The key `bookmarks:${quizId}`. -/
def bookmarksKey (quizId : String) : String := "bookmarks:" ++ quizId

/-- The key `reviewLater:${quizId}`. -/
def reviewLaterKey (quizId : String) : String := "reviewLater:" ++ quizId

/-- The key `notes:${quizId}`. -/
def notesKey (quizId : String) : String := "notes:" ++ quizId

/-- The key `timeSpent:${quizId}`. -/
def timeSpentKey (quizId : String) : String := "timeSpent:" ++ quizId

/-- The four keys of a quiz identifier. -/
def storageKeys (quizId : String) : List String :=
  [bookmarksKey quizId, reviewLaterKey quizId, notesKey quizId, timeSpentKey quizId]

/-- The test `!state.quizId` fails: the identifier is a non-empty string. -/
def quizIdSet : Option String → Option String
  | some q => if q = "" then none else some q
  | none => none

/-- What the hydration effect does. -/
inductive Hydration where
  | notRun
  | caught
  | dispatched (payload : PersistedPayload)
  | otherShape
deriving DecidableEq

/-- The hydration effect for the identifier `state.quizId`: it returns at once when the
identifier is not set; it reads the four items and parses them inside `try`; when a
`JSON.parse` throws, the `catch` only warns and nothing is dispatched; otherwise it
dispatches `LOAD_PERSISTED` with the four parsed values. The outcome `otherShape` stands for
a stored text that is valid JSON but not of the shape the typed state can hold. -/
def hydrateEffect (quizId : Option String) (storage : Storage) : Hydration :=
  match quizIdSet quizId with
  | none => Hydration.notRun
  | some q =>
    let b := parseIndexArray (storage.get (bookmarksKey q))
    let r := parseIndexArray (storage.get (reviewLaterKey q))
    let n := parseTextObject (storage.get (notesKey q))
    let t := parseNumberObject (storage.get (timeSpentKey q))
    if b = Parsed.syntaxError ∨ r = Parsed.syntaxError ∨ n = Parsed.syntaxError
        ∨ t = Parsed.syntaxError then Hydration.caught
    else
      match b, r, n, t with
      | Parsed.value bookmarked, Parsed.value reviewLater, Parsed.value notes,
        Parsed.value timeSpent =>
        Hydration.dispatched
          { bookmarked := some bookmarked, reviewLater := some reviewLater
            notes := some notes, timeSpent := some timeSpent }
      | _, _, _, _ => Hydration.otherShape

/-- The state after the hydration effect has run and its dispatch, if any, has been reduced;
`none` when a stored text has a shape outside the model. -/
def afterHydration (state : State) (storage : Storage) : Option State :=
  match hydrateEffect state.quizId storage with
  | Hydration.notRun => some state
  | Hydration.caught => some state
  | Hydration.dispatched payload => some (quizReducer state (Action.LOAD_PERSISTED (some payload)))
  | Hydration.otherShape => none

/-- The four items of the quiz `quizId` are of the kinds that the persist effect or an
interrupted write leaves behind: each of them is absent, the empty string, a text that is
not JSON, or the JSON text of a value of the shape stored under its key (an array of
indices for the bookmarks and the review list, an object of strings for the notes, an object
of numbers for the times). -/
def expectedShapes (quizId : String) (storage : Storage) : Prop :=
  parseIndexArray (storage.get (bookmarksKey quizId)) ≠ Parsed.otherShape ∧
  parseIndexArray (storage.get (reviewLaterKey quizId)) ≠ Parsed.otherShape ∧
  parseTextObject (storage.get (notesKey quizId)) ≠ Parsed.otherShape ∧
  parseNumberObject (storage.get (timeSpentKey quizId)) ≠ Parsed.otherShape

/-- The persist effect for the state: when the identifier is set it writes the four items,
the sets as arrays (`JSON.stringify(Array.from(set))`), the objects as they are. -/
def persistEffect (state : State) (storage : Storage) : Storage :=
  match quizIdSet state.quizId with
  | none => storage
  | some q =>
    (((storage.set (bookmarksKey q) (StoredText.indexArray state.bookmarkedQuestions.toArray)).set
      (reviewLaterKey q) (StoredText.indexArray state.reviewLaterQuestions.toArray)).set
      (notesKey q) (StoredText.textObject state.notes)).set
      (timeSpentKey q) (StoredText.numberObject state.timeSpentPerQuestion)

/-! ## Indices in range -/

/-- The index lies in `[0, n)`. -/
def inRange (n : Nat) (i : Int) : Bool := decide (0 ≤ i ∧ i < (n : Int))

/-- Every index carried by the action lies in `[0, n)`; `START_QUIZ` and `RESET_QUIZ`, which
replace the list of questions, are excluded. -/
def Action.indicesInRange (n : Nat) : Action → Bool
  | Action.SET_CURRENT_QUESTION i => inRange n i
  | Action.TOGGLE_BOOKMARK i => inRange n i
  | Action.TOGGLE_REVIEW_LATER i => inRange n i
  | Action.SET_HINT_USED i => inRange n i
  | Action.LOAD_PERSISTED payload =>
    (((payload.getD {}).bookmarked.getD []).all (inRange n))
      && (((payload.getD {}).reviewLater.getD []).all (inRange n))
  | Action.START_QUIZ _ => false
  | Action.RESET_QUIZ => false
  | _ => true

/-- Every index of the five sets of the state and the current question lie in
`[0, len(questions))`. -/
def State.indicesInRange (state : State) : Bool :=
  inRange state.questions.length state.currentQuestion
    && state.visitedQuestions.toArray.all (inRange state.questions.length)
    && state.attemptedQuestions.toArray.all (inRange state.questions.length)
    && state.bookmarkedQuestions.toArray.all (inRange state.questions.length)
    && state.reviewLaterQuestions.toArray.all (inRange state.questions.length)
    && state.hintUsed.toArray.all (inRange state.questions.length)

/-! ## Example inputs -/

/-- A session left over from an earlier quiz: one question answered and bookmarked, the
timer run down to 1700 seconds, the quiz completed. -/
def earlierSession : State :=
  dispatchAll initialState
    [ Action.START_QUIZ ⟨some "q1", "ann@example.org", [{ question := "2 + 2 = ?" }]⟩,
      Action.SET_ANSWER (Answer.single "4"),
      Action.TOGGLE_BOOKMARK 0,
      Action.UPDATE_TIMER 1700,
      Action.COMPLETE_QUIZ { score := 1, total_questions := 1 } ]

/-- The payload of the next quiz started over `earlierSession`. -/
def nextQuiz : StartPayload := ⟨some "q2", "ann@example.org", [{ question := "3 + 3 = ?" }]⟩

/-- A results payload whose only question carries no difficulty. -/
def untaggedResults : Results :=
  { score := 1, total_questions := 1
    questions := [{ category := some "Math", is_correct := true }] }

/-- The difficulty of a question as the specification words it: a missing or unrecognized
difficulty counts as `easy`. -/
def specDifficulty (q : Question) : String :=
  if difficultyKey q ∈ difficulties then difficultyKey q else "easy"

/-- The three questions of the specification's analytics example. -/
def exampleQuestions : List Question :=
  [ { category := some "Math:Algebra", difficulty := some "easy", is_correct := true },
    { category := some "Math:Geo", difficulty := some "easy", is_correct := false },
    { category := some "Art", difficulty := some "hard", is_correct := true } ]

/-- A results payload with the questions of the example. -/
def exampleResults : Results :=
  { score := 2, total_questions := 3, questions := exampleQuestions }

/-- A results payload for a quiz without questions. -/
def emptyResults : Results := { score := 0, total_questions := 0 }

/-- A multi-select question whose correct choices are `A` and `C`. -/
def questionAC : Question := { correct_answer := some (Answer.multi ["A", "C"]) }

/-- A quiz of three questions. -/
def threeQuestions : StartPayload :=
  ⟨some "q3", "ann@example.org",
    [{ question := "first" }, { question := "second" }, { question := "third" }]⟩

/-- A session in which the third question was opened and answered. -/
def answeredThird : List Action :=
  [ Action.START_QUIZ threeQuestions,
    Action.SET_CURRENT_QUESTION 2,
    Action.SET_ANSWER (Answer.single "A") ]

/-- The state right after the start of the quiz `nextQuiz` from the initial state. -/
def justStarted : State := quizReducer initialState (Action.START_QUIZ nextQuiz)

/-- The session of the earlier quiz after the next quiz has been started over it: its
identifier is `q2`, its bookmarks are still those of the earlier quiz. -/
def staleSession : State := quizReducer earlierSession (Action.START_QUIZ nextQuiz)

/-- A store in which the bookmarks of `q2` are not JSON and its notes are well-formed. -/
def brokenStorage : Storage :=
  ⟨[ (bookmarksKey "q2", StoredText.invalid "[0,"),
      (notesKey "q2", StoredText.textObject ⟨[(0, "remember")]⟩) ]⟩

/-- A store in which only the notes of `q2` are present. -/
def notesOnlyStorage : Storage :=
  ⟨[(notesKey "q2", StoredText.textObject ⟨[(0, "remember")]⟩)]⟩

/-- A results payload whose questions took 3 and 4 seconds, 0 seconds, an unknown time and
a negative time. -/
def timedResults : Results :=
  { score := 0, total_questions := 5
    questions :=
      [ { time_spent := some 3 }, { time_spent := some 0 }, { time_spent := some 4 },
        { time_spent := none }, { time_spent := some (-2) } ] }

/-- A session of the quiz `nextQuiz` into which a stored time of 41 seconds for question 0
has been loaded. -/
def timedSession : State :=
  quizReducer justStarted
    (Action.LOAD_PERSISTED (some { timeSpent := some ⟨[(0, 41)]⟩ }))

/-- A session of the quiz `nextQuiz` into which a stored time of `2 ^ 53` seconds for
question 0 has been loaded. -/
def longSession : State :=
  quizReducer justStarted
    (Action.LOAD_PERSISTED (some { timeSpent := some ⟨[(0, 9007199254740992)]⟩ }))

/-- A results payload whose three questions took `2 ^ 51 + 1`, `2 ^ 51` and `2 ^ 51`
seconds. -/
def longResults : Results :=
  { score := 0, total_questions := 3
    questions :=
      [ { time_spent := some 2251799813685249 }, { time_spent := some 2251799813685248 },
        { time_spent := some 2251799813685248 } ] }

/-- The session of three questions with the second question current. -/
def atSecondQuestion : State :=
  dispatchAll initialState
    [Action.START_QUIZ threeQuestions, Action.SET_CURRENT_QUESTION 1]

/-! ## Lemmas on binary64 rounding -/

theorem roundHalfEven_intCast (n : ℤ) : roundHalfEven (n : ℚ) = n := by
  simp [roundHalfEven]

theorem roundHalfEven_of_lt (x : ℚ) (f : ℤ) (h1 : (f : ℚ) ≤ x) (h2 : x < f + 1 / 2) :
    roundHalfEven x = f := by
  have hf : ⌊x⌋ = f := Int.floor_eq_iff.mpr ⟨h1, by linarith⟩
  unfold roundHalfEven
  rw [hf, if_pos (by linarith)]

theorem roundHalfEven_of_gt (x : ℚ) (f : ℤ) (h1 : (f : ℚ) + 1 / 2 < x) (h2 : x < f + 1) :
    roundHalfEven x = f + 1 := by
  have hf : ⌊x⌋ = f := Int.floor_eq_iff.mpr ⟨by linarith, h2⟩
  unfold roundHalfEven
  rw [hf, if_neg (by linarith), if_pos (by linarith)]

theorem roundHalfEven_tie_even (x : ℚ) (f : ℤ) (h : x = f + 1 / 2) (he : f % 2 = 0) :
    roundHalfEven x = f := by
  have hf : ⌊x⌋ = f := Int.floor_eq_iff.mpr ⟨by linarith, by linarith⟩
  unfold roundHalfEven
  rw [hf, if_neg (by linarith), if_neg (by linarith), if_pos he]

theorem abs_roundHalfEven_sub_le (x : ℚ) : |(roundHalfEven x : ℚ) - x| ≤ 1 / 2 := by
  have h1 := Int.floor_le x
  have h2 := Int.lt_floor_add_one x
  unfold roundHalfEven
  split
  · rw [abs_le]; constructor <;> linarith
  · split
    · rw [abs_le]; push_cast; constructor <;> linarith
    · have h3 : x - ⌊x⌋ = 1 / 2 := by
        rename_i ha hb
        exact le_antisymm (not_lt.mp hb) (not_lt.mp ha)
      split
      · rw [abs_le]; constructor <;> linarith
      · rw [abs_le]; push_cast; constructor <;> linarith

theorem log_two_eq (x : ℚ) (L : ℤ) (h1 : (2 : ℚ) ^ L ≤ x) (h2 : x < 2 ^ (L + 1)) :
    Int.log 2 x = L := by
  have hx : 0 < x := lt_of_lt_of_le (zpow_pos (by norm_num) L) h1
  have a : L ≤ Int.log 2 x :=
    (Int.zpow_le_iff_le_log (b := 2) (by norm_num) hx).mp (by exact_mod_cast h1)
  have b : Int.log 2 x < L + 1 :=
    (Int.lt_zpow_iff_log_lt (b := 2) (by norm_num) hx).mp (by exact_mod_cast h2)
  omega

theorem binary64_eq (x : ℚ) (L m : ℤ) (hL : -1022 ≤ L) (h1 : (2 : ℚ) ^ L ≤ x)
    (h2 : x < 2 ^ (L + 1)) (hm : roundHalfEven (x / 2 ^ (L - 52)) = m) :
    binary64 x = (m : ℚ) * 2 ^ (L - 52) := by
  have hx : 0 < x := lt_of_lt_of_le (zpow_pos (by norm_num) L) h1
  have he : binary64Exponent x = L - 52 := by
    unfold binary64Exponent
    rw [abs_of_pos hx, log_two_eq x L h1 h2]
    exact max_eq_left (by omega)
  unfold binary64
  rw [if_neg (ne_of_gt hx), he, hm]

theorem binary64Exponent_le (x : ℚ) (hx : x ≠ 0) (k : ℤ) (hk : -1074 ≤ k)
    (h : |x| < 2 ^ (53 + k)) : binary64Exponent x ≤ k := by
  have hpos : 0 < |x| := abs_pos.mpr hx
  have hlog : Int.log 2 |x| < 53 + k := by
    have := (Int.lt_zpow_iff_log_lt (b := 2) (by norm_num) hpos (x := 53 + k)).mp
      (by exact_mod_cast h)
    exact this
  unfold binary64Exponent
  exact max_le (by omega) hk

theorem binary64_of_scaled (n k : ℤ) (hn : |n| < 2 ^ 53) (hk : -1074 ≤ k) :
    binary64 ((n : ℚ) * 2 ^ k) = (n : ℚ) * 2 ^ k := by
  by_cases h0 : n = 0
  · subst h0
    simp [binary64]
  · have h2 : (0 : ℚ) < 2 ^ k := zpow_pos (by norm_num) k
    have hx : (n : ℚ) * 2 ^ k ≠ 0 :=
      mul_ne_zero (by exact_mod_cast h0) (ne_of_gt h2)
    have habs : |(n : ℚ) * 2 ^ k| < 2 ^ (53 + k) := by
      rw [abs_mul, abs_of_pos h2, zpow_add₀ (by norm_num : (2 : ℚ) ≠ 0)]
      apply mul_lt_mul_of_pos_right _ h2
      have : ((|n| : ℤ) : ℚ) < ((2 ^ 53 : ℤ) : ℚ) := by exact_mod_cast hn
      rw [Int.cast_abs] at this
      exact_mod_cast this
    have he := binary64Exponent_le _ hx k hk habs
    unfold binary64
    rw [if_neg hx]
    generalize binary64Exponent ((n : ℚ) * 2 ^ k) = e at he
    obtain ⟨d, hd⟩ : ∃ d : ℕ, k = e + d := ⟨(k - e).toNat, by omega⟩
    have hdiv : (n : ℚ) * 2 ^ k / 2 ^ e = ((n * 2 ^ d : ℤ) : ℚ) := by
      rw [hd, zpow_add₀ (by norm_num : (2 : ℚ) ≠ 0), zpow_natCast]
      have he0 : (2 : ℚ) ^ e ≠ 0 := zpow_ne_zero e (by norm_num)
      field_simp
      ring
    rw [hdiv, roundHalfEven_intCast, hd, zpow_add₀ (by norm_num : (2 : ℚ) ≠ 0), zpow_natCast]
    push_cast
    ring

theorem binary64_intCast (n : ℤ) (h : |n| ≤ 2 ^ 53) : binary64 (n : ℚ) = n := by
  rcases lt_or_eq_of_le h with h | h
  · have := binary64_of_scaled n 0 h (by norm_num)
    simpa using this
  · rcases (abs_eq (by norm_num)).mp h with h | h
    · have := binary64_of_scaled 1 53 (by norm_num) (by norm_num)
      rw [h]
      norm_num at this ⊢
      exact this
    · have := binary64_of_scaled (-1) 53 (by norm_num) (by norm_num)
      rw [h]
      norm_num at this ⊢
      exact this

theorem binary64Int_of_abs_le (n : ℤ) (h : |n| ≤ 2 ^ 53) : binary64Int n = n := by
  unfold binary64Int
  rw [binary64_intCast n h, Int.floor_intCast]

theorem binary64_error (x : ℚ) (hlo : (2 : ℚ) ^ (-1022 : ℤ) ≤ x) :
    |binary64 x - x| ≤ x * 2 ^ (-53 : ℤ) := by
  have hx : 0 < x := lt_of_lt_of_le (zpow_pos (by norm_num) _) hlo
  have hlog : (-1022 : ℤ) ≤ Int.log 2 x :=
    (Int.zpow_le_iff_le_log (b := 2) (by norm_num) hx).mp (by exact_mod_cast hlo)
  have hle : (2 : ℚ) ^ Int.log 2 x ≤ x := by
    have := Int.zpow_log_le_self (b := 2) (r := x) (by norm_num) hx
    exact_mod_cast this
  have he : binary64Exponent x = Int.log 2 x - 52 := by
    unfold binary64Exponent
    rw [abs_of_pos hx]
    exact max_eq_left (by omega)
  unfold binary64
  rw [if_neg (ne_of_gt hx), he]
  have h2 : (0 : ℚ) < 2 ^ (Int.log 2 x - 52) := zpow_pos (by norm_num) _
  have hr := abs_roundHalfEven_sub_le (x / 2 ^ (Int.log 2 x - 52))
  have hfac : (roundHalfEven (x / 2 ^ (Int.log 2 x - 52)) : ℚ) * 2 ^ (Int.log 2 x - 52) - x
      = ((roundHalfEven (x / 2 ^ (Int.log 2 x - 52)) : ℚ) - x / 2 ^ (Int.log 2 x - 52))
        * 2 ^ (Int.log 2 x - 52) := by
    field_simp
  rw [hfac, abs_mul, abs_of_pos h2]
  have hpow : (2 : ℚ) ^ (Int.log 2 x - 52) = 2 ^ Int.log 2 x * 2 ^ (-52 : ℤ) := by
    rw [← zpow_add₀ (by norm_num : (2 : ℚ) ≠ 0)]
    congr 1
  have h53 : (2 : ℚ) ^ (-53 : ℤ) = 1 / 2 * 2 ^ (-52 : ℤ) := by norm_num
  calc |(roundHalfEven (x / 2 ^ (Int.log 2 x - 52)) : ℚ) - x / 2 ^ (Int.log 2 x - 52)|
        * 2 ^ (Int.log 2 x - 52)
      ≤ 1 / 2 * 2 ^ (Int.log 2 x - 52) := mul_le_mul_of_nonneg_right hr (le_of_lt h2)
    _ = 2 ^ Int.log 2 x * 2 ^ (-53 : ℤ) := by rw [hpow, h53]; ring
    _ ≤ x * 2 ^ (-53 : ℤ) := mul_le_mul_of_nonneg_right hle (by positivity)

theorem JSNumber.ofRat_of_exact (x : ℚ) (h : binary64 x = x) (hlt : |x| < 2 ^ 1024) :
    JSNumber.ofRat x = JSNumber.fin x := by
  have h1 := (abs_lt.mp hlt).1
  have h2 := (abs_lt.mp hlt).2
  unfold JSNumber.ofRat
  rw [h, if_neg (by linarith), if_neg (by linarith)]

theorem JSNumber.ofRat_intCast (n : ℤ) (h : |n| ≤ 2 ^ 53) :
    JSNumber.ofRat (n : ℚ) = JSNumber.fin n := by
  apply JSNumber.ofRat_of_exact _ (binary64_intCast n h)
  have : ((|n| : ℤ) : ℚ) ≤ ((2 ^ 53 : ℤ) : ℚ) := by exact_mod_cast h
  rw [Int.cast_abs] at this
  calc |(n : ℚ)| ≤ ((2 ^ 53 : ℤ) : ℚ) := this
    _ < 2 ^ 1024 := by norm_num

theorem JSNumber.ofInt_of_abs_le (n : ℤ) (h : |n| ≤ 2 ^ 53) :
    JSNumber.ofInt n = JSNumber.fin n :=
  JSNumber.ofRat_intCast n h

theorem JSNumber.ofNat_of_le (n : ℕ) (h : n ≤ 2 ^ 53) :
    JSNumber.ofNat n = JSNumber.fin n := by
  have := JSNumber.ofRat_intCast (n : ℤ) (by rw [abs_of_nonneg (by positivity)]; exact_mod_cast h)
  simpa [JSNumber.ofNat] using this

theorem floor_binary64_div (T : ℤ) (b : ℕ) (hb : 0 < b) (hbT : (b : ℤ) ≤ T) (hT : T < 2 ^ 52) :
    ⌊binary64 ((T : ℚ) / b) + 1 / 2⌋ = ⌊(T : ℚ) / b + 1 / 2⌋ ∧
      |binary64 ((T : ℚ) / b)| < 2 ^ 1024 := by
  have hbq : (0 : ℚ) < b := by exact_mod_cast hb
  have hb1 : (1 : ℚ) ≤ b := by exact_mod_cast hb
  have hTq : (T : ℚ) < 2 ^ 52 := by exact_mod_cast hT
  have hbTq : (b : ℚ) ≤ T := by exact_mod_cast hbT
  generalize hx : (T : ℚ) / b = x
  have hxb : (b : ℚ) * x = T := by
    rw [← hx]
    field_simp
  have hx1 : 1 ≤ x := by
    rw [← hx, le_div_iff₀ hbq]
    linarith
  have hxT : x ≤ T := by nlinarith
  have herr := binary64_error x (le_trans (by norm_num) hx1)
  have h53 : (2 : ℚ) ^ (-53 : ℤ) = 1 / 2 ^ 53 := by norm_num
  rw [h53, abs_le] at herr
  have hexact : ∀ m : ℤ, 1 ≤ m → m ≤ 2 ^ 52 → x = (m : ℚ) - 1 / 2 → binary64 x = x := by
    intro m hm1 hm2 hxm
    have := binary64_of_scaled (2 * m - 1) (-1) (by rw [abs_lt]; constructor <;> omega)
      (by norm_num)
    have hform : ((2 * m - 1 : ℤ) : ℚ) * 2 ^ (-1 : ℤ) = x := by
      rw [hxm]
      push_cast
      norm_num
      ring
    rw [hform] at this
    exact this
  generalize hy : binary64 x = y at herr hexact
  have he1 : (b : ℚ) * y ≤ T + T / 2 ^ 53 := by
    have := mul_le_mul_of_nonneg_left herr.2 hbq.le
    calc (b : ℚ) * y = b * (y - x) + b * x := by ring
      _ ≤ b * (x * (1 / 2 ^ 53)) + b * x := by linarith
      _ = T + T / 2 ^ 53 := by rw [← hxb]; ring
  have he2 : (T : ℚ) - T / 2 ^ 53 ≤ b * y := by
    have := mul_le_mul_of_nonneg_left herr.1 hbq.le
    calc (T : ℚ) - T / 2 ^ 53 = b * -(x * (1 / 2 ^ 53)) + b * x := by rw [← hxb]; ring
      _ ≤ b * (y - x) + b * x := by linarith
      _ = b * y := by ring
  have hT2 : (T : ℚ) / 2 ^ 53 < 1 / 2 := by
    rw [div_lt_iff₀ (by norm_num)]
    linarith
  have hT0 : (0 : ℚ) ≤ T / 2 ^ 53 := by
    apply div_nonneg _ (by norm_num)
    linarith
  generalize hm : ⌊x + 1 / 2⌋ = m
  have hm1 : (m : ℚ) ≤ x + 1 / 2 := by
    rw [← hm]
    exact Int.floor_le _
  have hm2 : x + 1 / 2 < m + 1 := by
    rw [← hm]
    exact Int.lt_floor_add_one _
  have hbm1 : (b : ℚ) * m ≤ T + b / 2 := by
    have := mul_le_mul_of_nonneg_left hm1 hbq.le
    calc (b : ℚ) * m ≤ b * (x + 1 / 2) := this
      _ = T + b / 2 := by rw [← hxb]; ring
  have hbm2 : (T : ℚ) + b / 2 < b * m + b := by
    have := mul_lt_mul_of_pos_left hm2 hbq
    calc (T : ℚ) + b / 2 = b * (x + 1 / 2) := by rw [← hxb]; ring
      _ < b * (m + 1) := this
      _ = b * m + b := by ring
  have hi1 : 2 * ((b : ℤ) * m) ≤ 2 * T + b := by
    have : (2 * ((b : ℚ) * m)) ≤ 2 * T + b := by linarith
    exact_mod_cast this
  have hi2 : 2 * T + b + 1 ≤ 2 * ((b : ℤ) * m) + 2 * b := by
    have : (2 * (T : ℚ) + b) < 2 * (b * m) + 2 * b := by linarith
    have : 2 * T + (b : ℤ) < 2 * ((b : ℤ) * m) + 2 * b := by exact_mod_cast this
    omega
  have hq2 : 2 * (T : ℚ) + b + 1 ≤ 2 * ((b : ℚ) * m) + 2 * b := by exact_mod_cast hi2
  have hmpos : 1 ≤ m := by
    have : (0 : ℚ) < m := by linarith
    have : 0 < m := by exact_mod_cast this
    omega
  have hmle : m ≤ 2 ^ 52 := by
    have : (m : ℚ) < 2 ^ 52 + 1 := by linarith
    have : m < 2 ^ 52 + 1 := by exact_mod_cast this
    omega
  constructor
  · rw [Int.floor_eq_iff]
    constructor
    · rcases lt_or_eq_of_le hi1 with hlt | heq
      · have hq1 : 2 * ((b : ℚ) * m) + 1 ≤ 2 * T + b := by
          have : 2 * ((b : ℤ) * m) + 1 ≤ 2 * T + b := by omega
          exact_mod_cast this
        have : (b : ℚ) * m ≤ b * (y + 1 / 2) := by
          calc (b : ℚ) * m ≤ T + b / 2 - 1 / 2 := by linarith
            _ ≤ b * y + b / 2 := by linarith
            _ = b * (y + 1 / 2) := by ring
        exact le_of_mul_le_mul_left this hbq
      · have hq1 : 2 * ((b : ℚ) * m) = 2 * T + b := by exact_mod_cast heq
        have hxm : x = (m : ℚ) - 1 / 2 := by
          have : (b : ℚ) * x = b * ((m : ℚ) - 1 / 2) := by
            rw [hxb]
            linarith
          exact mul_left_cancel₀ (ne_of_gt hbq) this
        rw [hexact m hmpos hmle hxm]
        exact hm1
    · have : (b : ℚ) * (y + 1 / 2) < b * ((m : ℚ) + 1) := by
        calc (b : ℚ) * (y + 1 / 2) = b * y + b / 2 := by ring
          _ < T + b / 2 + 1 / 2 := by linarith
          _ ≤ b * m + b := by linarith
          _ = b * ((m : ℚ) + 1) := by ring
      exact lt_of_mul_lt_mul_left this hbq.le
  · have hy1 : y ≤ x + x * (1 / 2 ^ 53) := by linarith [herr.2]
    have hy0 : x - x * (1 / 2 ^ 53) ≤ y := by linarith [herr.1]
    rw [abs_lt]
    constructor
    · have : (0 : ℚ) ≤ x * (1 / 2 ^ 53) := by positivity
      have : x * (1 / 2 ^ 53) ≤ x := by
        have : (1 : ℚ) / 2 ^ 53 ≤ 1 := by norm_num
        nlinarith
      have hy0 : (0 : ℚ) ≤ y := by linarith
      exact lt_of_lt_of_le (by norm_num) hy0
    · have : x * (1 / 2 ^ 53) ≤ x := by
        have : (1 : ℚ) / 2 ^ 53 ≤ 1 := by norm_num
        nlinarith
      have hy53 : y < 2 ^ 53 := by
        have : (2 : ℚ) * 2 ^ 52 = 2 ^ 53 := by norm_num
        linarith
      exact lt_trans hy53 (by norm_num)

theorem JSNumber.round_div_of_lt (T : ℤ) (b : ℕ) (hb : 0 < b) (hbT : (b : ℤ) ≤ T)
    (hT : T < 2 ^ 52) :
    JSNumber.round (JSNumber.div (JSNumber.ofInt T) (JSNumber.ofNat b)) =
      JSNumber.fin (⌊(T : ℚ) / b + 1 / 2⌋ : ℤ) := by
  have hbq : (b : ℚ) ≠ 0 := by
    have : (0 : ℚ) < b := by exact_mod_cast hb
    exact ne_of_gt this
  have hT0 : 0 ≤ T := le_trans (by positivity) hbT
  have hTn : JSNumber.ofInt T = JSNumber.fin T :=
    JSNumber.ofInt_of_abs_le T (by rw [abs_of_nonneg hT0]; omega)
  have hbn : JSNumber.ofNat b = JSNumber.fin b :=
    JSNumber.ofNat_of_le b (by
      have : (b : ℤ) ≤ 2 ^ 53 := by omega
      exact_mod_cast this)
  obtain ⟨hfl, hlt⟩ := floor_binary64_div T b hb hbT hT
  have h1 := (abs_lt.mp hlt).1
  have h2 := (abs_lt.mp hlt).2
  rw [hTn, hbn]
  unfold JSNumber.div
  simp only [if_neg hbq]
  unfold JSNumber.ofRat
  rw [if_neg (by linarith), if_neg (by linarith)]
  unfold JSNumber.round
  simp only
  rw [hfl]

theorem JSNumber.ofRat_zero : JSNumber.ofRat 0 = JSNumber.fin 0 := by
  simpa using JSNumber.ofRat_intCast 0 (by norm_num)

theorem JSNumber.ofRat_one : JSNumber.ofRat 1 = JSNumber.fin 1 := by
  simpa using JSNumber.ofRat_intCast 1 (by norm_num)

theorem JSNumber.ofRat_fifty : JSNumber.ofRat 50 = JSNumber.fin 50 := by
  simpa using JSNumber.ofRat_intCast 50 (by norm_num)

theorem JSNumber.ofRat_neg_fifty : JSNumber.ofRat (-50) = JSNumber.fin (-50) := by
  simpa using JSNumber.ofRat_intCast (-50) (by norm_num)

theorem JSNumber.ofRat_hundred : JSNumber.ofRat 100 = JSNumber.fin 100 := by
  simpa using JSNumber.ofRat_intCast 100 (by norm_num)

theorem JSNumber.ofRat_half : JSNumber.ofRat (1 / 2) = JSNumber.fin (1 / 2) := by
  apply JSNumber.ofRat_of_exact
  · have := binary64_of_scaled 1 (-1) (by norm_num) (by norm_num)
    norm_num at this ⊢
    exact this
  · rw [abs_of_pos (by norm_num)]
    exact lt_trans (by norm_num : (1 : ℚ) / 2 < 1) (by norm_num)

/-! ## Lemmas on sets and objects -/

namespace JSSet

variable {α : Type} [DecidableEq α]

theorem has_iff (s : JSSet α) (x : α) : s.has x = true ↔ x ∈ s.elems := by
  simp [has]

theorem elems_add_of_not_mem (s : JSSet α) (x : α) (h : x ∉ s.elems) :
    (s.add x).elems = s.elems ++ [x] := by
  simp [add, h]

theorem mem_add (s : JSSet α) (x y : α) :
    y ∈ (s.add x).elems ↔ y ∈ s.elems ∨ y = x := by
  unfold add
  split
  · rename_i h
    constructor
    · intro hy
      exact Or.inl hy
    · rintro (hy | rfl)
      · exact hy
      · exact h
  · simp

theorem has_add (s : JSSet α) (x y : α) :
    (s.add x).has y = true ↔ s.has y = true ∨ y = x := by
  rw [has_iff, has_iff, mem_add]

theorem mem_delete (s : JSSet α) (x y : α) :
    y ∈ (s.delete x).elems ↔ y ∈ s.elems ∧ y ≠ x := by
  unfold delete
  rw [s.nodup.mem_erase_iff]
  tauto

theorem mem_foldl_add (l : List α) (t : JSSet α) (y : α) :
    y ∈ (l.foldl add t).elems ↔ y ∈ t.elems ∨ y ∈ l := by
  induction l generalizing t with
  | nil => simp
  | cons x xs ih =>
    rw [List.foldl_cons, ih, mem_add, List.mem_cons]
    tauto

theorem mem_ofIterable (l : List α) (y : α) : y ∈ (ofIterable l).elems ↔ y ∈ l := by
  unfold ofIterable
  rw [mem_foldl_add]
  simp [empty]

theorem elems_foldl_add (l : List α) (t : JSSet α) (h : (t.elems ++ l).Nodup) :
    (l.foldl add t).elems = t.elems ++ l := by
  induction l generalizing t with
  | nil => simp
  | cons x xs ih =>
    have hx : x ∉ t.elems := by
      intro hmem
      have := List.disjoint_of_nodup_append h hmem
      exact this (List.mem_cons_self x xs)
    have hstep : (t.add x).elems = t.elems ++ [x] := elems_add_of_not_mem t x hx
    rw [List.foldl_cons, ih (t.add x) (by rw [hstep]; simpa using h), hstep]
    simp

/-- Copying a set with `new Set(set)` gives an equal set. -/
theorem ofIterable_toArray (s : JSSet α) : ofIterable s.toArray = s := by
  have h := elems_foldl_add s.elems empty (by simpa [empty] using s.nodup)
  cases s with
  | mk elems nodup =>
    have h2 : (ofIterable elems).elems = elems := by simpa [ofIterable, empty] using h
    show ofIterable elems = ⟨elems, nodup⟩
    generalize ofIterable elems = t at h2
    cases t
    cases h2
    rfl

theorem size_ofIterable (l : List α) : (ofIterable l).size = l.toFinset.card := by
  unfold size
  rw [← List.toFinset_card_of_nodup (ofIterable l).nodup]
  congr 1
  ext y
  simp [mem_ofIterable]

end JSSet

namespace JSObj

variable {κ α : Type} [DecidableEq κ]

theorem getEntries_setEntries_self (l : List (κ × α)) (k : κ) (v : α) :
    getEntries (setEntries l k v) k = some v := by
  induction l with
  | nil => simp [setEntries, getEntries]
  | cons e rest ih =>
    obtain ⟨k', v'⟩ := e
    by_cases h : k' = k
    · simp [setEntries, getEntries, h]
    · simp [setEntries, getEntries, h, ih]

theorem getEntries_setEntries_ne (l : List (κ × α)) (k j : κ) (v : α) (h : j ≠ k) :
    getEntries (setEntries l k v) j = getEntries l j := by
  induction l with
  | nil => simp [setEntries, getEntries, Ne.symm h]
  | cons e rest ih =>
    obtain ⟨k', v'⟩ := e
    by_cases hk : k' = k
    · subst hk
      simp [setEntries, getEntries, Ne.symm h]
    · by_cases hj : k' = j
      · subst hj
        simp [setEntries, getEntries, hk]
      · simp [setEntries, getEntries, hk, hj, ih]

theorem get_set_self (o : JSObj κ α) (k : κ) (v : α) : (o.set k v).get k = some v :=
  getEntries_setEntries_self o.entries k v

theorem get_set_ne (o : JSObj κ α) (k j : κ) (v : α) (h : j ≠ k) :
    (o.set k v).get j = o.get j :=
  getEntries_setEntries_ne o.entries k j v h

end JSObj

/-! ## The reducer -/

theorem toggle_has (old : JSSet Int) (i j : Int) :
    (toggle old i).has j = if j = i then !old.has j else old.has j := by
  unfold toggle
  simp only [JSSet.ofIterable_toArray]
  by_cases hi : old.has i = true
  · rw [if_pos hi]
    by_cases hj : j = i
    · subst hj
      rw [if_pos rfl, hi]
      simp only [Bool.not_true]
      rw [← Bool.not_eq_true, JSSet.has_iff, JSSet.mem_delete]
      simp
    · rw [if_neg hj]
      rw [Bool.eq_iff_iff, JSSet.has_iff, JSSet.has_iff, JSSet.mem_delete]
      simp [hj]
  · rw [if_neg hi]
    by_cases hj : j = i
    · subst hj
      rw [if_pos rfl]
      rw [Bool.not_eq_true] at hi
      rw [hi]
      simp only [Bool.not_false]
      rw [JSSet.has_add]
      exact Or.inr rfl
    · rw [if_neg hj]
      rw [Bool.eq_iff_iff, JSSet.has_add]
      simp [hj]

theorem dispatchAll_cons (s : State) (a : Action) (l : List Action) :
    dispatchAll s (a :: l) = dispatchAll (quizReducer s a) l := rfl

/-- C1. The action `SET_ANSWER v` stores `v` under the current question, adds the current
question to `attemptedQuestions` whatever `v` is, keeps every other answer and leaves every
other field of the state as it was. -/
theorem set_answer_spec (s : State) (v : Answer) :
    (quizReducer s (Action.SET_ANSWER v)).answers.get s.currentQuestion = some v ∧
    (∀ j, (quizReducer s (Action.SET_ANSWER v)).attemptedQuestions.has j = true ↔
      (s.attemptedQuestions.has j = true ∨ j = s.currentQuestion)) ∧
    (∀ j, j ≠ s.currentQuestion →
      (quizReducer s (Action.SET_ANSWER v)).answers.get j = s.answers.get j) ∧
    quizReducer s (Action.SET_ANSWER v) =
      { s with
        answers := (quizReducer s (Action.SET_ANSWER v)).answers
        attemptedQuestions := (quizReducer s (Action.SET_ANSWER v)).attemptedQuestions } := by
  refine ⟨?_, ?_, ?_, rfl⟩
  · exact JSObj.get_set_self _ _ _
  · intro j
    show ((JSSet.ofIterable s.attemptedQuestions.toArray).add s.currentQuestion).has j = true ↔ _
    rw [JSSet.ofIterable_toArray, JSSet.has_add]
  · intro j hj
    exact JSObj.get_set_ne _ _ _ _ hj

theorem visited_dispatch (is : List Int) (s : State) (j : Int) :
    (dispatchAll s (is.map Action.SET_CURRENT_QUESTION)).visitedQuestions.has j = true ↔
      (s.visitedQuestions.has j = true ∨ j ∈ is) := by
  induction is generalizing s with
  | nil => simp [dispatchAll]
  | cons i rest ih =>
    rw [List.map_cons, dispatchAll_cons, ih]
    show (((JSSet.ofIterable s.visitedQuestions.toArray).add i).has j = true ∨ j ∈ rest) ↔ _
    rw [JSSet.ofIterable_toArray, JSSet.has_add, List.mem_cons]
    tauto

theorem current_dispatch (is : List Int) (s : State) :
    (dispatchAll s (is.map Action.SET_CURRENT_QUESTION)).currentQuestion =
      is.getLast?.getD s.currentQuestion := by
  induction is generalizing s with
  | nil => simp [dispatchAll]
  | cons i rest ih =>
    rw [List.map_cons, dispatchAll_cons, ih]
    show rest.getLast?.getD i = _
    cases rest with
    | nil => simp
    | cons r rs =>
      rw [List.getLast?_cons_cons, List.getLast?_eq_getLast _ (List.cons_ne_nil r rs)]
      rfl

/-- C2. After `SET_CURRENT_QUESTION` has been dispatched for each index of a non-empty list,
in order, `visitedQuestions` holds exactly its former members and the indices of the list,
and `currentQuestion` is the last index of the list. -/
theorem set_current_question_sequence (s : State) (i : Int) (rest : List Int) :
    (∀ j, (dispatchAll s ((i :: rest).map Action.SET_CURRENT_QUESTION)).visitedQuestions.has j
        = true ↔ (s.visitedQuestions.has j = true ∨ j ∈ i :: rest)) ∧
    (dispatchAll s ((i :: rest).map Action.SET_CURRENT_QUESTION)).currentQuestion =
      (i :: rest).getLast (List.cons_ne_nil i rest) := by
  refine ⟨fun j => visited_dispatch (i :: rest) s j, ?_⟩
  rw [current_dispatch, List.getLast?_eq_getLast _ (List.cons_ne_nil i rest)]
  rfl

theorem toggle_bookmark_repeat (n : Nat) (s : State) (i : Int) :
    (∀ j, (dispatchAll s (List.replicate n (Action.TOGGLE_BOOKMARK i))).bookmarkedQuestions.has j
        = if j = i ∧ n % 2 = 1 then !s.bookmarkedQuestions.has j
          else s.bookmarkedQuestions.has j) ∧
    (dispatchAll s (List.replicate n (Action.TOGGLE_BOOKMARK i))).reviewLaterQuestions =
      s.reviewLaterQuestions := by
  induction n generalizing s with
  | zero => simp [dispatchAll]
  | succ n ih =>
    rw [List.replicate_succ, dispatchAll_cons]
    obtain ⟨h1, h2⟩ := ih (quizReducer s (Action.TOGGLE_BOOKMARK i))
    refine ⟨?_, ?_⟩
    · intro j
      rw [h1 j]
      show (if j = i ∧ n % 2 = 1 then !(toggle s.bookmarkedQuestions i).has j
        else (toggle s.bookmarkedQuestions i).has j) = _
      rw [toggle_has]
      by_cases hj : j = i
      · rcases Nat.mod_two_eq_zero_or_one n with hn | hn
        · have hn1 : (n + 1) % 2 = 1 := by omega
          simp [hj, hn, hn1]
        · have hn1 : ¬ (n + 1) % 2 = 1 := by omega
          simp [hj, hn, hn1]
      · simp [hj]
    · rw [h2]
      rfl

theorem toggle_review_repeat (n : Nat) (s : State) (i : Int) :
    (∀ j, (dispatchAll s (List.replicate n (Action.TOGGLE_REVIEW_LATER i))).reviewLaterQuestions.has j
        = if j = i ∧ n % 2 = 1 then !s.reviewLaterQuestions.has j
          else s.reviewLaterQuestions.has j) ∧
    (dispatchAll s (List.replicate n (Action.TOGGLE_REVIEW_LATER i))).bookmarkedQuestions =
      s.bookmarkedQuestions := by
  induction n generalizing s with
  | zero => simp [dispatchAll]
  | succ n ih =>
    rw [List.replicate_succ, dispatchAll_cons]
    obtain ⟨h1, h2⟩ := ih (quizReducer s (Action.TOGGLE_REVIEW_LATER i))
    refine ⟨?_, ?_⟩
    · intro j
      rw [h1 j]
      show (if j = i ∧ n % 2 = 1 then !(toggle s.reviewLaterQuestions i).has j
        else (toggle s.reviewLaterQuestions i).has j) = _
      rw [toggle_has]
      by_cases hj : j = i
      · rcases Nat.mod_two_eq_zero_or_one n with hn | hn
        · have hn1 : (n + 1) % 2 = 1 := by omega
          simp [hj, hn, hn1]
        · have hn1 : ¬ (n + 1) % 2 = 1 := by omega
          simp [hj, hn, hn1]
      · simp [hj]
    · rw [h2]
      rfl

/-- C3. After `n` consecutive `TOGGLE_BOOKMARK i` the membership of `i` in
`bookmarkedQuestions` differs from what it was iff `n` is odd (so `i`, absent at first, is
present iff `n` is odd), the membership of every other index is what it was and
`reviewLaterQuestions` is unchanged; likewise for `TOGGLE_REVIEW_LATER i` with the two sets
exchanged. -/
theorem toggle_parity (s : State) (i : Int) (n : Nat) :
    (((dispatchAll s (List.replicate n (Action.TOGGLE_BOOKMARK i))).bookmarkedQuestions.has i
        ≠ s.bookmarkedQuestions.has i) ↔ Odd n) ∧
    (s.bookmarkedQuestions.has i = false →
      ((dispatchAll s (List.replicate n (Action.TOGGLE_BOOKMARK i))).bookmarkedQuestions.has i
        = true ↔ Odd n)) ∧
    (∀ j, j ≠ i →
      (dispatchAll s (List.replicate n (Action.TOGGLE_BOOKMARK i))).bookmarkedQuestions.has j
        = s.bookmarkedQuestions.has j) ∧
    (dispatchAll s (List.replicate n (Action.TOGGLE_BOOKMARK i))).reviewLaterQuestions =
      s.reviewLaterQuestions ∧
    (((dispatchAll s (List.replicate n (Action.TOGGLE_REVIEW_LATER i))).reviewLaterQuestions.has i
        ≠ s.reviewLaterQuestions.has i) ↔ Odd n) ∧
    (s.reviewLaterQuestions.has i = false →
      ((dispatchAll s (List.replicate n (Action.TOGGLE_REVIEW_LATER i))).reviewLaterQuestions.has i
        = true ↔ Odd n)) ∧
    (∀ j, j ≠ i →
      (dispatchAll s (List.replicate n (Action.TOGGLE_REVIEW_LATER i))).reviewLaterQuestions.has j
        = s.reviewLaterQuestions.has j) ∧
    (dispatchAll s (List.replicate n (Action.TOGGLE_REVIEW_LATER i))).bookmarkedQuestions =
      s.bookmarkedQuestions := by
  obtain ⟨hb, hbr⟩ := toggle_bookmark_repeat n s i
  obtain ⟨hr, hrb⟩ := toggle_review_repeat n s i
  refine ⟨?_, ?_, ?_, hbr, ?_, ?_, ?_, hrb⟩
  · rw [hb i, Nat.odd_iff]
    by_cases hn : n % 2 = 1
    · simp [hn]
    · simp [hn]
  · intro h0
    rw [hb i, Nat.odd_iff, h0]
    by_cases hn : n % 2 = 1
    · simp [hn]
    · simp [hn]
  · intro j hj
    rw [hb j]
    simp [hj]
  · rw [hr i, Nat.odd_iff]
    by_cases hn : n % 2 = 1
    · simp [hn]
    · simp [hn]
  · intro h0
    rw [hr i, Nat.odd_iff, h0]
    by_cases hn : n % 2 = 1
    · simp [hn]
    · simp [hn]
  · intro j hj
    rw [hr j]
    simp [hj]

/-- C4. The action `LOAD_PERSISTED p` makes the four persisted fields exactly the contents
of `p` (an absent payload or component counting as empty), whatever they held before, leaves
every other field as it was, and applying it a second time changes nothing. -/
theorem load_persisted_spec (s : State) (p : Option PersistedPayload) :
    (∀ j, (quizReducer s (Action.LOAD_PERSISTED p)).bookmarkedQuestions.has j = true ↔
      j ∈ (p.getD {}).bookmarked.getD []) ∧
    (∀ j, (quizReducer s (Action.LOAD_PERSISTED p)).reviewLaterQuestions.has j = true ↔
      j ∈ (p.getD {}).reviewLater.getD []) ∧
    (quizReducer s (Action.LOAD_PERSISTED p)).notes = (p.getD {}).notes.getD JSObj.empty ∧
    (quizReducer s (Action.LOAD_PERSISTED p)).timeSpentPerQuestion =
      (p.getD {}).timeSpent.getD JSObj.empty ∧
    (∀ t : State,
      (quizReducer t (Action.LOAD_PERSISTED p)).bookmarkedQuestions =
        (quizReducer s (Action.LOAD_PERSISTED p)).bookmarkedQuestions ∧
      (quizReducer t (Action.LOAD_PERSISTED p)).reviewLaterQuestions =
        (quizReducer s (Action.LOAD_PERSISTED p)).reviewLaterQuestions ∧
      (quizReducer t (Action.LOAD_PERSISTED p)).notes =
        (quizReducer s (Action.LOAD_PERSISTED p)).notes ∧
      (quizReducer t (Action.LOAD_PERSISTED p)).timeSpentPerQuestion =
        (quizReducer s (Action.LOAD_PERSISTED p)).timeSpentPerQuestion) ∧
    quizReducer s (Action.LOAD_PERSISTED p) =
      { s with
        bookmarkedQuestions := (quizReducer s (Action.LOAD_PERSISTED p)).bookmarkedQuestions
        reviewLaterQuestions := (quizReducer s (Action.LOAD_PERSISTED p)).reviewLaterQuestions
        notes := (quizReducer s (Action.LOAD_PERSISTED p)).notes
        timeSpentPerQuestion := (quizReducer s (Action.LOAD_PERSISTED p)).timeSpentPerQuestion } ∧
    quizReducer (quizReducer s (Action.LOAD_PERSISTED p)) (Action.LOAD_PERSISTED p) =
      quizReducer s (Action.LOAD_PERSISTED p) := by
  refine ⟨?_, ?_, rfl, rfl, fun t => ⟨rfl, rfl, rfl, rfl⟩, rfl, rfl⟩
  · intro j
    show (JSSet.ofIterable ((p.getD {}).bookmarked.getD [])).has j = true ↔ _
    rw [JSSet.has_iff, JSSet.mem_ofIterable]
  · intro j
    show (JSSet.ofIterable ((p.getD {}).reviewLater.getD [])).has j = true ↔ _
    rw [JSSet.has_iff, JSSet.mem_ofIterable]

/-- C10, counterexample. Starting the next quiz over a session left by an earlier quiz keeps
the old answers, bookmarks, timer, results and the completed flag. -/
theorem start_quiz_keeps_earlier_session :
    (quizReducer earlierSession (Action.START_QUIZ nextQuiz)).quizCompleted = true ∧
    (quizReducer earlierSession (Action.START_QUIZ nextQuiz)).answers.get 0 =
      some (Answer.single "4") ∧
    (quizReducer earlierSession (Action.START_QUIZ nextQuiz)).attemptedQuestions.has 0 = true ∧
    (quizReducer earlierSession (Action.START_QUIZ nextQuiz)).bookmarkedQuestions.has 0 = true ∧
    (quizReducer earlierSession (Action.START_QUIZ nextQuiz)).timeRemaining = 1700 ∧
    (quizReducer earlierSession (Action.START_QUIZ nextQuiz)).quizResults =
      some { score := 1, total_questions := 1 } := by
  decide

/-- C10, amended. The action `START_QUIZ p` sets `quizId`, `email` and `questions` from `p`,
sets `quizStarted`, clears `loading` and `error`, and leaves every other field as it was; the
derived fields have their initial values when the state is the initial one, as it is after
`RESET_QUIZ`. -/
theorem start_quiz_spec (s : State) (p : StartPayload) :
    (quizReducer s (Action.START_QUIZ p)).quizId = p.quiz_id ∧
    (quizReducer s (Action.START_QUIZ p)).email = p.email ∧
    (quizReducer s (Action.START_QUIZ p)).questions = p.questions ∧
    (quizReducer s (Action.START_QUIZ p)).quizStarted = true ∧
    (quizReducer s (Action.START_QUIZ p)).loading = false ∧
    (quizReducer s (Action.START_QUIZ p)).error = none ∧
    quizReducer s (Action.START_QUIZ p) =
      { s with
        quizId := (quizReducer s (Action.START_QUIZ p)).quizId
        email := (quizReducer s (Action.START_QUIZ p)).email
        questions := (quizReducer s (Action.START_QUIZ p)).questions
        quizStarted := (quizReducer s (Action.START_QUIZ p)).quizStarted
        loading := (quizReducer s (Action.START_QUIZ p)).loading
        error := (quizReducer s (Action.START_QUIZ p)).error } ∧
    quizReducer (quizReducer s Action.RESET_QUIZ) (Action.START_QUIZ p) =
      { quizId := p.quiz_id
        email := p.email
        questions := p.questions
        currentQuestion := 0
        answers := JSObj.empty
        visitedQuestions := JSSet.empty
        attemptedQuestions := JSSet.empty
        bookmarkedQuestions := JSSet.empty
        reviewLaterQuestions := JSSet.empty
        notes := JSObj.empty
        hintUsed := JSSet.empty
        timeSpentPerQuestion := JSObj.empty
        timeRemaining := 1800
        quizStarted := true
        quizCompleted := false
        quizResults := none
        loading := false
        error := none } := by
  refine ⟨rfl, rfl, rfl, rfl, rfl, rfl, rfl, rfl⟩

/-! ## The report matrix -/

theorem get_foldl_set_const {κ α : Type} [DecidableEq κ] (l : List κ) (v : α)
    (m : JSObj κ α) (c : κ) :
    (l.foldl (fun o k => o.set k v) m).get c = if c ∈ l then some v else m.get c := by
  induction l generalizing m with
  | nil => simp
  | cons k rest ih =>
    rw [List.foldl_cons, ih]
    by_cases hc : c ∈ rest
    · simp [hc]
    · by_cases hk : c = k
      · subst hk
        simp [hc, JSObj.get_set_self]
      · simp [hc, hk, JSObj.get_set_ne _ _ _ _ hk]

theorem sum_setEntries {κ α : Type} [DecidableEq κ] (f : α → Nat) (l : List (κ × α))
    (k : κ) (v : α) :
    ((JSObj.setEntries l k v).map (fun e => f e.2)).sum
        + ((JSObj.getEntries l k).map f).getD 0
      = (l.map (fun e => f e.2)).sum + f v := by
  induction l with
  | nil => simp [JSObj.setEntries, JSObj.getEntries]
  | cons e rest ih =>
    obtain ⟨k', v'⟩ := e
    by_cases h : k' = k
    · simp [JSObj.setEntries, JSObj.getEntries, h]
      omega
    · simp only [JSObj.setEntries, JSObj.getEntries, h, if_false, List.map_cons, List.sum_cons]
      omega

theorem mem_categoryList (questions : List Question) (c : String) :
    c ∈ categoryList questions ↔ c ∈ questions.map categoryKey := by
  unfold categoryList sortStrings JSSet.toArray
  rw [List.mem_insertionSort, JSSet.mem_ofIterable]

theorem cell_buildMatrix (cl : List String) (c d : String) :
    (buildMatrix cl).cell c d =
      if c ∈ cl ∧ d ∈ difficulties then some ⟨0, 0⟩ else none := by
  unfold Matrix.cell buildMatrix
  rw [get_foldl_set_const]
  by_cases hc : c ∈ cl
  · rw [if_pos hc, Option.some_bind, get_foldl_set_const]
    by_cases hd : d ∈ difficulties
    · simp [hc, hd]
    · simp [hc, hd, JSObj.get, JSObj.empty, JSObj.getEntries]
  · rw [if_neg hc]
    simp [hc, JSObj.get, JSObj.empty, JSObj.getEntries]

theorem totalSum_buildMatrix (cl : List String) : (buildMatrix cl).totalSum = 0 := by
  have key : ∀ (l : List String) (m : Matrix),
      (l.foldl (fun matrix cat =>
        matrix.set cat (difficulties.foldl (fun row d => row.set d ⟨0, 0⟩) JSObj.empty))
        m).totalSum ≤ m.totalSum := by
    intro l
    induction l with
    | nil => intro m; exact Nat.le_refl _
    | cons k rest ih =>
      intro m
      rw [List.foldl_cons]
      refine Nat.le_trans (ih _) ?_
      have h := sum_setEntries rowTotal m.entries k
        (difficulties.foldl (fun row d => row.set d ⟨0, 0⟩) JSObj.empty)
      have hz : rowTotal (difficulties.foldl (fun row d => row.set d ⟨0, 0⟩) JSObj.empty) = 0 := by
        decide
      rw [hz] at h
      show ((JSObj.setEntries m.entries k
          (difficulties.foldl (fun row d => row.set d ⟨0, 0⟩) JSObj.empty)).map
            (fun e => rowTotal e.2)).sum ≤ (m.entries.map (fun e => rowTotal e.2)).sum
      omega
  have h := key cl JSObj.empty
  have h0 : Matrix.totalSum (JSObj.empty : Matrix) = 0 := rfl
  unfold buildMatrix
  omega

theorem cell_bumpCell (m : Matrix) (cat diff : String) (b : Bool) (c d : String) :
    (bumpCell m cat diff b).cell c d =
      if c = cat ∧ d = diff then (m.cell c d).map (fun cell => cell.bump b)
      else m.cell c d := by
  cases hrow : m.get cat with
  | none =>
    simp only [bumpCell, hrow]
    by_cases hc : c = cat ∧ d = diff
    · obtain ⟨rfl, rfl⟩ := hc
      simp [Matrix.cell, hrow]
    · simp [hc]
  | some row =>
    cases hcell : row.get diff with
    | none =>
      simp only [bumpCell, hrow, hcell]
      by_cases hc : c = cat ∧ d = diff
      · obtain ⟨rfl, rfl⟩ := hc
        simp [Matrix.cell, hrow, hcell]
      · simp [hc]
    | some cell =>
      simp only [bumpCell, hrow, hcell]
      show ((m.set cat (row.set diff (cell.bump b))).get c).bind (fun row => row.get d) = _
      by_cases hcat : c = cat
      · subst hcat
        rw [JSObj.get_set_self, Option.some_bind]
        by_cases hd : d = diff
        · subst hd
          simp [JSObj.get_set_self, Matrix.cell, hrow, hcell]
        · simp [hd, JSObj.get_set_ne _ _ _ _ hd, Matrix.cell, hrow]
      · rw [JSObj.get_set_ne _ _ _ _ hcat]
        simp [hcat, Matrix.cell]

theorem isSome_cell_bumpCell (m : Matrix) (cat diff : String) (b : Bool) (c d : String) :
    ((bumpCell m cat diff b).cell c d).isSome = (m.cell c d).isSome := by
  rw [cell_bumpCell]
  split
  · cases m.cell c d <;> rfl
  · rfl

theorem totalSum_bumpCell (m : Matrix) (cat diff : String) (b : Bool) :
    (bumpCell m cat diff b).totalSum =
      m.totalSum + if (m.cell cat diff).isSome then 1 else 0 := by
  cases hrow : m.get cat with
  | none => simp [bumpCell, Matrix.cell, hrow]
  | some row =>
    cases hcell : row.get diff with
    | none => simp [bumpCell, Matrix.cell, hrow, hcell]
    | some cell =>
      have h1 : ((JSObj.setEntries row.entries diff (cell.bump b)).map
            (fun e => e.2.total)).sum
          + ((JSObj.getEntries row.entries diff).map (fun c : Cell => c.total)).getD 0
          = (row.entries.map (fun e => e.2.total)).sum + (cell.bump b).total :=
        sum_setEntries (fun c : Cell => c.total) row.entries diff (cell.bump b)
      have h2 : ((JSObj.setEntries m.entries cat (row.set diff (cell.bump b))).map
            (fun e => rowTotal e.2)).sum
          + ((JSObj.getEntries m.entries cat).map rowTotal).getD 0
          = (m.entries.map (fun e => rowTotal e.2)).sum
            + rowTotal (row.set diff (cell.bump b)) :=
        sum_setEntries rowTotal m.entries cat (row.set diff (cell.bump b))
      have hrow2 : JSObj.getEntries m.entries cat = some row := hrow
      have hcell2 : JSObj.getEntries row.entries diff = some cell := hcell
      rw [hrow2] at h2
      rw [hcell2] at h1
      have h3 : rowTotal (row.set diff (cell.bump b)) =
          ((JSObj.setEntries row.entries diff (cell.bump b)).map (fun e => e.2.total)).sum := rfl
      have h4 : rowTotal row = (row.entries.map (fun e => e.2.total)).sum := rfl
      have h5 : (cell.bump b).total = cell.total + 1 := rfl
      have h6 : (bumpCell m cat diff b).totalSum =
          ((JSObj.setEntries m.entries cat (row.set diff (cell.bump b))).map
            (fun e => rowTotal e.2)).sum := by
        simp only [bumpCell, hrow, hcell]
        rfl
      have h7 : m.totalSum = (m.entries.map (fun e => rowTotal e.2)).sum := rfl
      have h8 : (m.cell cat diff).isSome = true := by
        simp [Matrix.cell, hrow, hcell]
      rw [h6, h7, h8, if_pos rfl]
      simp only [Option.map_some', Option.getD_some] at h1 h2
      omega

theorem passStep_matrix (st : PassState) (q : Question) :
    (passStep st q).matrix = bumpCell st.matrix (categoryKey q) (difficultyKey q) q.is_correct := by
  unfold passStep
  cases q.time_spent with
  | none => rfl
  | some t =>
    by_cases ht : 0 < t
    · simp [ht]
    · simp [ht]

theorem aggregationPass_matrix (questions : List Question) (matrix : Matrix) :
    (aggregationPass questions matrix).matrix =
      questions.foldl
        (fun m q => bumpCell m (categoryKey q) (difficultyKey q) q.is_correct) matrix := by
  unfold aggregationPass
  have key : ∀ (qs : List Question) (st : PassState),
      (qs.foldl passStep st).matrix =
        qs.foldl (fun m q => bumpCell m (categoryKey q) (difficultyKey q) q.is_correct)
          st.matrix := by
    intro qs
    induction qs with
    | nil => intro st; rfl
    | cons q rest ih =>
      intro st
      rw [List.foldl_cons, List.foldl_cons, ih, passStep_matrix]
  exact key questions _

theorem cell_foldl_bumpCell (qs : List Question) (m : Matrix) (c d : String) :
    (qs.foldl (fun m q => bumpCell m (categoryKey q) (difficultyKey q) q.is_correct) m).cell c d
      = (m.cell c d).map (fun cell =>
        { correct := cell.correct +
            qs.countP (fun q => decide (categoryKey q = c ∧ difficultyKey q = d) && q.is_correct)
          total := cell.total +
            qs.countP (fun q => decide (categoryKey q = c ∧ difficultyKey q = d)) }) := by
  induction qs generalizing m with
  | nil =>
    simp only [List.foldl_nil, List.countP_nil, Nat.add_zero]
    cases m.cell c d <;> rfl
  | cons q rest ih =>
    rw [List.foldl_cons, ih, cell_bumpCell]
    by_cases hq : c = categoryKey q ∧ d = difficultyKey q
    · obtain ⟨rfl, rfl⟩ := hq
      cases m.cell (categoryKey q) (difficultyKey q) with
      | none => simp
      | some cell =>
        cases hb : q.is_correct <;>
          simp [List.countP_cons, Cell.bump, hb] <;> omega
    · have hq2 : ¬ (categoryKey q = c ∧ difficultyKey q = d) := by
        rintro ⟨rfl, rfl⟩
        exact hq ⟨rfl, rfl⟩
      rw [if_neg hq]
      cases m.cell c d with
      | none => simp
      | some cell => simp [List.countP_cons, hq2]

theorem totalSum_foldl_bumpCell (qs : List Question) (m : Matrix) :
    (qs.foldl (fun m q => bumpCell m (categoryKey q) (difficultyKey q) q.is_correct)
        m).totalSum
      = m.totalSum + qs.countP (fun q => (m.cell (categoryKey q) (difficultyKey q)).isSome) := by
  induction qs generalizing m with
  | nil => simp
  | cons q rest ih =>
    rw [List.foldl_cons, ih, totalSum_bumpCell, List.countP_cons]
    simp only [isSome_cell_bumpCell]
    omega

theorem reportPage_matrix (r : Results) :
    (ReportPage r).matrix =
      r.questions.foldl
        (fun m q => bumpCell m (categoryKey q) (difficultyKey q) q.is_correct)
        (buildMatrix (categoryList r.questions)) :=
  aggregationPass_matrix r.questions (buildMatrix (categoryList r.questions))

/-- C5, counterexample. A question without a difficulty is counted in no cell: the cell
`Math`/`easy` stays at zero although the question has category `Math` and counts as `easy`
in the claim, and the totals sum to 0 for a list of one question. -/
theorem untagged_question_not_counted :
    (ReportPage untaggedResults).matrix.cell "Math" "easy" = some { correct := 0, total := 0 } ∧
    untaggedResults.questions.countP
      (fun q => decide (categoryKey q = "Math" ∧ specDifficulty q = "easy")) = 1 ∧
    (ReportPage untaggedResults).matrix.totalSum = 0 ∧
    untaggedResults.questions.length = 1 := by
  decide

/-- C5, amended. After the aggregation pass of the render, the matrix has a cell exactly for
each category key of the questions and each of the three difficulties; its `total` is the
number of questions with that category key whose lower-cased difficulty is that difficulty,
its `correct` the number of those with `is_correct`; a question whose difficulty is missing
or unrecognized is counted in no cell, so the totals sum to the number of questions with a
recognized difficulty. -/
theorem matrix_counts (r : Results) (c d : String) :
    (ReportPage r).matrix.cell c d =
      (if c ∈ r.questions.map categoryKey ∧ d ∈ difficulties then
        some
          { correct := r.questions.countP
              (fun q => decide (categoryKey q = c ∧ difficultyKey q = d) && q.is_correct)
            total := r.questions.countP
              (fun q => decide (categoryKey q = c ∧ difficultyKey q = d)) }
      else none) ∧
    (ReportPage r).matrix.totalSum =
      r.questions.countP (fun q => decide (difficultyKey q ∈ difficulties)) := by
  rw [reportPage_matrix]
  constructor
  · rw [cell_foldl_bumpCell, cell_buildMatrix]
    by_cases h : c ∈ r.questions.map categoryKey ∧ d ∈ difficulties
    · rw [if_pos h, if_pos ⟨(mem_categoryList _ _).mpr h.1, h.2⟩]
      simp
    · have h2 : ¬ (c ∈ categoryList r.questions ∧ d ∈ difficulties) :=
        fun hh => h ⟨(mem_categoryList _ _).mp hh.1, hh.2⟩
      rw [if_neg h, if_neg h2]
      rfl
  · rw [totalSum_foldl_bumpCell, totalSum_buildMatrix, Nat.zero_add]
    apply List.countP_congr
    intro q hq
    rw [cell_buildMatrix]
    have hmem : categoryKey q ∈ categoryList r.questions :=
      (mem_categoryList _ _).mpr (List.mem_map_of_mem _ hq)
    by_cases hd : difficultyKey q ∈ difficulties
    · simp [hmem, hd]
    · simp [hmem, hd]

/-! ## The accuracies shown by the report -/

theorem cellAt_buildMatrix (cl : List String) (c d : String) :
    (buildMatrix cl).cellAt c d = { correct := 0, total := 0 } := by
  unfold Matrix.cellAt
  rw [cell_buildMatrix]
  split <;> rfl

theorem difficultyAccuracy_buildMatrix (cl l : List String) :
    difficultyAccuracy l (buildMatrix cl) =
      ⟨[("easy", JSNumber.fin 0), ("medium", JSNumber.fin 0), ("hard", JSNumber.fin 0)]⟩ := by
  have sums : ∀ (d : String) (l : List String),
      l.foldl (fun (ct : Nat × Nat) cat =>
        (ct.1 + ((buildMatrix cl).cellAt cat d).correct,
          ct.2 + ((buildMatrix cl).cellAt cat d).total)) (0, 0) = (0, 0) := by
    intro d l
    induction l with
    | nil => rfl
    | cons k rest ih =>
      rw [List.foldl_cons, cellAt_buildMatrix]
      exact ih
  unfold difficultyAccuracy
  simp only [sums]
  decide

theorem exampleQuestions_categoryList : categoryList exampleQuestions = ["Art", "Math"] := by
  decide

theorem exampleResults_matrix :
    (ReportPage exampleResults).matrix =
      ⟨[("Art", ⟨[("easy", ⟨0, 0⟩), ("medium", ⟨0, 0⟩), ("hard", ⟨1, 1⟩)]⟩),
        ("Math", ⟨[("easy", ⟨1, 2⟩), ("medium", ⟨0, 0⟩), ("hard", ⟨0, 0⟩)]⟩)]⟩ := by
  decide

theorem accuracy_zero_zero : accuracy 0 0 = JSNumber.fin 0 := by
  simp [accuracy]

theorem accuracy_one_one : accuracy 1 1 = JSNumber.fin 100 := by
  have h1 : JSNumber.ofNat 1 = JSNumber.fin 1 := by
    simpa using JSNumber.ofNat_of_le 1 (by norm_num)
  simp [accuracy, h1, JSNumber.div, JSNumber.ofRat_one, JSNumber.mul, JSNumber.ofRat_hundred,
    JSNumber.round]
  norm_num

theorem accuracy_one_two : accuracy 1 2 = JSNumber.fin 50 := by
  have h1 : JSNumber.ofNat 1 = JSNumber.fin 1 := by
    simpa using JSNumber.ofNat_of_le 1 (by norm_num)
  have h2 : JSNumber.ofNat 2 = JSNumber.fin 2 := by
    simpa using JSNumber.ofNat_of_le 2 (by norm_num)
  have h3 : JSNumber.ofRat 2⁻¹ = JSNumber.fin 2⁻¹ := by
    simpa using JSNumber.ofRat_half
  have h4 : JSNumber.ofRat (2⁻¹ * 100) = JSNumber.fin 50 := by
    rw [show (2⁻¹ * 100 : ℚ) = 50 by norm_num]
    exact JSNumber.ofRat_fifty
  simp [accuracy, h1, h2, h3, h4, JSNumber.div, JSNumber.mul, JSNumber.round]
  norm_num

/-- C6. The accuracies by difficulty that a render shows are computed from the matrix
before the aggregation pass has filled it: they are 0 for every list of questions. For the
example of the specification the render shows `easy = 0` and `hard = 0`, although the matrix
it leaves holds 1 of 2 for `easy` and 1 of 1 for `hard`, from which the same computation
gives 50 and 100. -/
theorem difficulty_accuracy_shown (r : Results) :
    (ReportPage r).difficultyAccuracy =
      ⟨[("easy", JSNumber.fin 0), ("medium", JSNumber.fin 0), ("hard", JSNumber.fin 0)]⟩ ∧
    (ReportPage exampleResults).difficultyAccuracy.get "easy" = some (JSNumber.fin 0) ∧
    (ReportPage exampleResults).difficultyAccuracy.get "hard" = some (JSNumber.fin 0) ∧
    (ReportPage exampleResults).matrix.cell "Math" "easy" = some { correct := 1, total := 2 } ∧
    (ReportPage exampleResults).matrix.cell "Art" "hard" = some { correct := 1, total := 1 } ∧
    difficultyAccuracy (categoryList exampleQuestions) (ReportPage exampleResults).matrix =
      ⟨[("easy", JSNumber.fin 50), ("medium", JSNumber.fin 0), ("hard", JSNumber.fin 100)]⟩ := by
  refine ⟨?_, ?_, ?_, ?_, ?_, ?_⟩
  · exact difficultyAccuracy_buildMatrix _ _
  · decide
  · decide
  · decide
  · decide
  · rw [exampleResults_matrix, exampleQuestions_categoryList]
    simp [difficultyAccuracy, difficulties, Matrix.cellAt, Matrix.cell, JSObj.get, JSObj.set,
      JSObj.getEntries, JSObj.setEntries, JSObj.empty, accuracy_one_two, accuracy_one_one,
      accuracy_zero_zero]

theorem categoryAccuracy_buildMatrix (cl l : List String) :
    categoryAccuracy l (buildMatrix cl) =
      l.map (fun cat => { category := cat, pct := JSNumber.fin 0 }) := by
  unfold categoryAccuracy sortByPctDesc
  simp only [cellAt_buildMatrix]
  have hsum : difficulties.foldl (fun (ct : Nat × Nat) (_ : String) => (ct.1 + 0, ct.2 + 0))
      (0, 0) = (0, 0) := by decide
  simp only [hsum, accuracy_zero_zero]
  apply List.Sorted.insertionSort_eq
  unfold List.Sorted
  rw [List.pairwise_map]
  apply List.pairwise_of_forall
  intro a b
  simp [JSNumber.sub, JSNumber.isPositive, JSNumber.ofRat_zero]

/-- C7. The accuracies by category that a render shows are computed from the matrix before
the aggregation pass has filled it: every category is listed with 0. For the example of
the specification the render shows `Art` 0 and `Math` 0, although the same computation on the
matrix the render leaves gives `Art` 100 and `Math` 50. -/
theorem category_accuracy_shown (r : Results) :
    (ReportPage r).categoryAccuracy =
      (categoryList r.questions).map (fun cat => { category := cat, pct := JSNumber.fin 0 }) ∧
    (ReportPage exampleResults).categoryAccuracy =
      [{ category := "Art", pct := JSNumber.fin 0 },
        { category := "Math", pct := JSNumber.fin 0 }] ∧
    categoryAccuracy (categoryList exampleQuestions) (ReportPage exampleResults).matrix =
      [{ category := "Art", pct := JSNumber.fin 100 },
        { category := "Math", pct := JSNumber.fin 50 }] := by
  refine ⟨categoryAccuracy_buildMatrix _ _, ?_, ?_⟩
  · show categoryAccuracy (categoryList exampleQuestions)
      (buildMatrix (categoryList exampleQuestions)) = _
    rw [categoryAccuracy_buildMatrix, exampleQuestions_categoryList]
    rfl
  · rw [exampleResults_matrix, exampleQuestions_categoryList]
    simp [categoryAccuracy, sortByPctDesc, difficulties, Matrix.cellAt, Matrix.cell, JSObj.get,
      JSObj.getEntries, accuracy_one_two, accuracy_one_one, JSNumber.sub, JSNumber.isPositive]
    norm_num [JSNumber.ofRat_neg_fifty]

theorem reportPage_percentage (r : Results) : (ReportPage r).percentage = percentage r :=
  rfl

theorem binary64_23_of_40 :
    binary64 ((23 : ℚ) / 40) = 5179139571476070 * 2 ^ ((-1 : ℤ) - 52) := by
  have hr : roundHalfEven ((23 : ℚ) / 40 / 2 ^ ((-1 : ℤ) - 52)) = 5179139571476070 :=
    roundHalfEven_of_lt _ 5179139571476070 (by norm_num) (by norm_num)
  exact binary64_eq ((23 : ℚ) / 40) (-1) 5179139571476070 (by norm_num) (by norm_num)
    (by norm_num) hr

theorem binary64_23_of_40_times_100 :
    binary64 ((5179139571476070 : ℚ) * 2 ^ ((-1 : ℤ) - 52) * 100)
      = 8092405580431359 * 2 ^ ((5 : ℤ) - 52) := by
  have hr : roundHalfEven ((5179139571476070 : ℚ) * 2 ^ ((-1 : ℤ) - 52) * 100
      / 2 ^ ((5 : ℤ) - 52)) = 8092405580431359 :=
    roundHalfEven_of_lt _ 8092405580431359 (by norm_num) (by norm_num)
  exact binary64_eq _ 5 8092405580431359 (by norm_num) (by norm_num) (by norm_num) hr

/-- The percentage of 23 correct answers out of 40 is shown as 57, not as the 58 that
the exact quotient 57.5 would give: the binary64 quotient `23 / 40` times 100 is just
below 57.5. -/
theorem percentage_23_of_40 :
    percentage { score := 23, total_questions := 40 } = JSNumber.fin 57 := by
  have h23 : JSNumber.ofInt 23 = JSNumber.fin 23 := by
    simpa using JSNumber.ofInt_of_abs_le 23 (by norm_num)
  have h40 : JSNumber.ofInt 40 = JSNumber.fin 40 := by
    simpa using JSNumber.ofInt_of_abs_le 40 (by norm_num)
  have hd : JSNumber.ofRat ((23 : ℚ) / 40)
      = JSNumber.fin (5179139571476070 * 2 ^ ((-1 : ℤ) - 52)) := by
    unfold JSNumber.ofRat
    rw [binary64_23_of_40, if_neg, if_neg]
    · exact not_le.mpr (lt_trans (by norm_num : -(2 : ℚ) ^ 1024 < 0) (by norm_num))
    · exact not_le.mpr (lt_trans
        (by norm_num : (5179139571476070 : ℚ) * 2 ^ ((-1 : ℤ) - 52) < 1) (by norm_num))
  have hm : JSNumber.ofRat ((5179139571476070 : ℚ) * 2 ^ ((-1 : ℤ) - 52) * 100)
      = JSNumber.fin (8092405580431359 * 2 ^ ((5 : ℤ) - 52)) := by
    unfold JSNumber.ofRat
    rw [binary64_23_of_40_times_100, if_neg, if_neg]
    · exact not_le.mpr (lt_trans (by norm_num : -(2 : ℚ) ^ 1024 < 0) (by norm_num))
    · exact not_le.mpr (lt_trans
        (by norm_num : (8092405580431359 : ℚ) * 2 ^ ((5 : ℤ) - 52) < 64) (by norm_num))
  have hf : ⌊(8092405580431359 : ℚ) * 2 ^ ((5 : ℤ) - 52) + 1 / 2⌋ = 57 := by
    rw [Int.floor_eq_iff]
    constructor <;> norm_num
  unfold percentage
  simp only [h23, h40]
  unfold JSNumber.div
  simp only [if_neg (by norm_num : ¬ (40 : ℚ) = 0), hd]
  unfold JSNumber.mul
  simp only [hm]
  unfold JSNumber.round
  simp only
  rw [hf]
  norm_num

/-- C8. For a results payload with `total_questions = 0` the overall percentage is `NaN`
when the score is 0 and `Infinity` when it is positive: the division is not guarded, unlike
the accuracies, whose guard gives 0 for a zero total. -/
theorem percentage_zero_total :
    percentage emptyResults = JSNumber.nan ∧
    (ReportPage emptyResults).percentage = JSNumber.nan ∧
    percentage { score := 2, total_questions := 0 } = JSNumber.posInf ∧
    accuracy 0 0 = JSNumber.fin 0 := by
  have h0 : JSNumber.ofInt 0 = JSNumber.fin 0 := by
    simpa using JSNumber.ofInt_of_abs_le 0 (by norm_num)
  have h2 : JSNumber.ofInt 2 = JSNumber.fin 2 := by
    simpa using JSNumber.ofInt_of_abs_le 2 (by norm_num)
  have hnan : percentage emptyResults = JSNumber.nan := by
    simp [percentage, emptyResults, h0, JSNumber.round, JSNumber.mul, JSNumber.div]
  refine ⟨hnan, ?_, ?_, accuracy_zero_zero⟩
  · rw [reportPage_percentage]
    exact hnan
  · simp [percentage, h0, h2, JSNumber.round, JSNumber.mul, JSNumber.div, JSNumber.infOfSign]

/-! ## The multi-select check -/

theorem allCorrect_iff (question : Question) (correct : List String)
    (h : question.correct_answer = some (Answer.multi correct)) (sel : List String) :
    allCorrect question sel = true ↔ ∀ a, a ∈ sel ↔ a ∈ correct := by
  unfold allCorrect
  rw [h]
  simp only [iterateAnswer, Bool.and_eq_true, beq_iff_eq, List.all_eq_true, JSSet.toArray,
    JSSet.has_iff, JSSet.mem_ofIterable, JSSet.size_ofIterable]
  constructor
  · rintro ⟨hcard, hsub⟩
    have hsubset : correct.toFinset ⊆ sel.toFinset := by
      intro a ha
      rw [List.mem_toFinset] at ha ⊢
      exact hsub a ha
    have heq : correct.toFinset = sel.toFinset :=
      Finset.eq_of_subset_of_card_le hsubset (Nat.le_of_eq hcard)
    intro a
    rw [← List.mem_toFinset, ← List.mem_toFinset, heq]
  · intro hiff
    refine ⟨?_, fun a ha => (hiff a).mpr ha⟩
    congr 1
    ext a
    rw [List.mem_toFinset, List.mem_toFinset]
    exact hiff a

/-- C9. For a question whose `correct_answer` is a list, the flag computed by
`handleMultiAnswer` is true iff the new selection and the correct answer have the same
members, whatever their order and repetitions; so is the check for any selection. With the
correct choices `A` and `C`: `[C, A]` is correct, `[A]` and `[A, B, C]` are not. -/
theorem multi_answer_correct_iff (question : Question) (correct : List String)
    (h : question.correct_answer = some (Answer.multi correct))
    (prevSelected : List String) (answer : String) :
    ((handleMultiAnswer question prevSelected answer).2 = true ↔
      ∀ a, a ∈ (handleMultiAnswer question prevSelected answer).1 ↔ a ∈ correct) ∧
    (∀ sel : List String, allCorrect question sel = true ↔ ∀ a, a ∈ sel ↔ a ∈ correct) ∧
    allCorrect questionAC ["C", "A"] = true ∧
    allCorrect questionAC ["A"] = false ∧
    allCorrect questionAC ["A", "B", "C"] = false := by
  refine ⟨?_, fun sel => allCorrect_iff question correct h sel, ?_, ?_, ?_⟩
  · exact allCorrect_iff question correct h _
  · decide
  · decide
  · decide

/-- C9, witness: with the correct choices `A` and `C` and `C` selected, choosing `A` gives the
selection `[C, A]`, which is found correct. -/
theorem multi_answer_correct_iff_witness :
    questionAC.correct_answer = some (Answer.multi ["A", "C"]) ∧
    (handleMultiAnswer questionAC ["C"] "A").1 = ["C", "A"] ∧
    ((handleMultiAnswer questionAC ["C"] "A").2 = true ↔
      ∀ a, a ∈ (handleMultiAnswer questionAC ["C"] "A").1 ↔ a ∈ ["A", "C"]) :=
  ⟨rfl, by decide, (multi_answer_correct_iff questionAC ["A", "C"] rfl ["C"] "A").1⟩

/-! ## Invariants of the reducer -/

theorem JSObj.mem_keys_iff {κ α : Type} [DecidableEq κ] (o : JSObj κ α) (k : κ) :
    k ∈ o.keys ↔ (o.get k).isSome = true := by
  obtain ⟨entries⟩ := o
  unfold JSObj.keys JSObj.get
  induction entries with
  | nil => simp [JSObj.getEntries]
  | cons e rest ih =>
    obtain ⟨k', v'⟩ := e
    by_cases h : k' = k
    · simp [JSObj.getEntries, h]
    · have h2 : ¬ k = k' := fun hh => h hh.symm
      simp only [List.map_cons, List.mem_cons, h2, false_or, JSObj.getEntries, h, if_false]
      exact ih

theorem isSome_get_set {κ α : Type} [DecidableEq κ] (o : JSObj κ α) (k j : κ) (v : α)
    (h : (o.get j).isSome = true) : ((o.set k v).get j).isSome = true := by
  by_cases hj : j = k
  · subst hj
    rw [JSObj.get_set_self]
    rfl
  · rw [JSObj.get_set_ne _ _ _ _ hj]
    exact h

theorem attempted_answered_step (s : State) (a : Action)
    (h : ∀ j, s.attemptedQuestions.has j = true → (s.answers.get j).isSome = true) :
    ∀ j, (quizReducer s a).attemptedQuestions.has j = true →
      ((quizReducer s a).answers.get j).isSome = true := by
  cases a with
  | SET_ANSWER v =>
    intro j hj
    have hj2 : ((JSSet.ofIterable s.attemptedQuestions.toArray).add s.currentQuestion).has j
        = true := hj
    rw [JSSet.ofIterable_toArray, JSSet.has_add] at hj2
    show ((s.answers.set s.currentQuestion v).get j).isSome = true
    rcases hj2 with hj2 | hj2
    · exact isSome_get_set _ _ _ _ (h j hj2)
    · subst hj2
      rw [JSObj.get_set_self]
      rfl
  | RESET_QUIZ =>
    intro j hj
    have hj2 : (JSSet.empty : JSSet Int).has j = true := hj
    simp [JSSet.has, JSSet.empty] at hj2
  | _ => exact h

theorem attempted_answered_dispatchAll (actions : List Action) (s : State)
    (h : ∀ j, s.attemptedQuestions.has j = true → (s.answers.get j).isSome = true) :
    ∀ j, (dispatchAll s actions).attemptedQuestions.has j = true →
      ((dispatchAll s actions).answers.get j).isSome = true := by
  induction actions generalizing s with
  | nil => exact h
  | cons a rest ih =>
    rw [dispatchAll_cons]
    exact ih _ (attempted_answered_step s a h)

/-- C11. In every state reached from `initialState` by a sequence of actions, an index of
`attemptedQuestions` has an entry in `answers`: it is one of the keys of `answers`. -/
theorem attempted_subset_answers (actions : List Action) (j : Int)
    (h : (dispatchAll initialState actions).attemptedQuestions.has j = true) :
    ((dispatchAll initialState actions).answers.get j).isSome = true ∧
    j ∈ (dispatchAll initialState actions).answers.keys := by
  have h0 : ∀ j, initialState.attemptedQuestions.has j = true →
      (initialState.answers.get j).isSome = true := by
    intro j hj
    have hj2 : (JSSet.empty : JSSet Int).has j = true := hj
    simp [JSSet.has, JSSet.empty] at hj2
  have h1 := attempted_answered_dispatchAll actions initialState h0 j h
  exact ⟨h1, (JSObj.mem_keys_iff _ _).mpr h1⟩

/-- C11, witness: after the third question has been opened and answered, index 2 is
attempted and has an answer. -/
theorem attempted_subset_answers_witness :
    (dispatchAll initialState answeredThird).attemptedQuestions.has 2 = true ∧
    ((dispatchAll initialState answeredThird).answers.get 2).isSome = true ∧
    (2 : Int) ∈ (dispatchAll initialState answeredThird).answers.keys :=
  ⟨by decide, attempted_subset_answers answeredThird 2 (by decide)⟩

theorem current_visited_step (s : State) (a : Action) (ha : a ≠ Action.RESET_QUIZ)
    (h : s.visitedQuestions.has s.currentQuestion = true) :
    (quizReducer s a).visitedQuestions.has (quizReducer s a).currentQuestion = true := by
  cases a with
  | SET_CURRENT_QUESTION i =>
    show ((JSSet.ofIterable s.visitedQuestions.toArray).add i).has i = true
    rw [JSSet.has_add]
    exact Or.inr rfl
  | RESET_QUIZ => exact absurd rfl ha
  | _ => exact h

theorem current_visited_dispatchAll (actions : List Action) (s : State)
    (ha : ∀ a ∈ actions, a ≠ Action.RESET_QUIZ)
    (h : s.visitedQuestions.has s.currentQuestion = true) :
    (dispatchAll s actions).visitedQuestions.has (dispatchAll s actions).currentQuestion
      = true := by
  induction actions generalizing s with
  | nil => exact h
  | cons a rest ih =>
    rw [dispatchAll_cons]
    exact ih _ (fun b hb => ha b (List.mem_cons_of_mem a hb))
      (current_visited_step s a (ha a (List.mem_cons_self a rest)) h)

/-- C12. For a sequence of actions that begins with `SET_CURRENT_QUESTION` and holds no
`RESET_QUIZ`, the state reached after each non-empty initial part of the sequence has its
`currentQuestion` in `visitedQuestions`. -/
theorem current_in_visited (s : State) (i : Int) (rest : List Action)
    (h : ∀ a ∈ rest, a ≠ Action.RESET_QUIZ) (k : Nat) :
    (dispatchAll s ((Action.SET_CURRENT_QUESTION i :: rest).take (k + 1))).visitedQuestions.has
      (dispatchAll s ((Action.SET_CURRENT_QUESTION i :: rest).take (k + 1))).currentQuestion
      = true := by
  rw [List.take_succ_cons, dispatchAll_cons]
  apply current_visited_dispatchAll
  · intro a ha
    exact h a (List.mem_of_mem_take ha)
  · show ((JSSet.ofIterable s.visitedQuestions.toArray).add i).has i = true
    rw [JSSet.has_add]
    exact Or.inr rfl

/-- C12, witness: the third question is opened, answered and bookmarked after a session left
by an earlier quiz; the current question is visited after the second action. -/
theorem current_in_visited_witness :
    (∀ a ∈ [Action.SET_ANSWER (Answer.single "A"), Action.TOGGLE_BOOKMARK 2],
      a ≠ Action.RESET_QUIZ) ∧
    (dispatchAll earlierSession ((Action.SET_CURRENT_QUESTION 2 ::
      [Action.SET_ANSWER (Answer.single "A"), Action.TOGGLE_BOOKMARK 2]).take (1 + 1))
      ).visitedQuestions.has
      (dispatchAll earlierSession ((Action.SET_CURRENT_QUESTION 2 ::
        [Action.SET_ANSWER (Answer.single "A"), Action.TOGGLE_BOOKMARK 2]).take (1 + 1))
        ).currentQuestion = true :=
  ⟨by simp, current_in_visited earlierSession 2
    [Action.SET_ANSWER (Answer.single "A"), Action.TOGGLE_BOOKMARK 2] (by simp) 1⟩

theorem has_copy_add (old : JSSet Int) (i j : Int) (h : old.has j = true) :
    ((JSSet.ofIterable old.toArray).add i).has j = true := by
  rw [JSSet.ofIterable_toArray, JSSet.has_add]
  exact Or.inl h

theorem copy_add_of_has (old : JSSet Int) (i : Int) (h : old.has i = true) :
    (JSSet.ofIterable old.toArray).add i = old := by
  rw [JSSet.ofIterable_toArray]
  unfold JSSet.add
  rw [dif_pos ((JSSet.has_iff old i).mp h)]

/-- C13. The reducer has no case for `MARK_VISITED`: the action leaves every state as it
is. After `START_QUIZ` from the initial state the visit effect of `QuizPage` dispatches
`MARK_VISITED` for question 0, and question 0 is still not in `visitedQuestions`, which
stays empty. -/
theorem mark_visited_ignored (s : State) (i : Int) :
    quizReducer s (MARK_VISITED i) = s ∧
    justStarted.currentQuestion = 0 ∧
    visitEffect justStarted = [MARK_VISITED 0] ∧
    (dispatchAll justStarted (visitEffect justStarted)).visitedQuestions.has 0 = false ∧
    (dispatchAll justStarted (visitEffect justStarted)).visitedQuestions = JSSet.empty := by
  refine ⟨rfl, ?_, ?_, ?_, ?_⟩ <;> decide

/-- C20. An action other than `RESET_QUIZ` removes nothing from `visitedQuestions`,
`attemptedQuestions` and `hintUsed` and removes no key from `answers`; `SET_HINT_USED i` leaves
`hintUsed` as it is when `i` is already in it. -/
theorem sets_only_grow (s : State) (a : Action) (h : a ≠ Action.RESET_QUIZ) :
    (∀ j, s.visitedQuestions.has j = true → (quizReducer s a).visitedQuestions.has j = true) ∧
    (∀ j, s.attemptedQuestions.has j = true →
      (quizReducer s a).attemptedQuestions.has j = true) ∧
    (∀ j, s.hintUsed.has j = true → (quizReducer s a).hintUsed.has j = true) ∧
    (∀ j, j ∈ s.answers.keys → j ∈ (quizReducer s a).answers.keys) ∧
    (∀ i, s.hintUsed.has i = true →
      (quizReducer s (Action.SET_HINT_USED i)).hintUsed = s.hintUsed) := by
  refine ⟨?_, ?_, ?_, ?_, ?_⟩
  · cases a with
    | SET_CURRENT_QUESTION i => exact fun j hj => has_copy_add _ _ _ hj
    | RESET_QUIZ => exact absurd rfl h
    | _ => exact fun j hj => hj
  · cases a with
    | SET_ANSWER v => exact fun j hj => has_copy_add _ _ _ hj
    | RESET_QUIZ => exact absurd rfl h
    | _ => exact fun j hj => hj
  · cases a with
    | SET_HINT_USED i => exact fun j hj => has_copy_add _ _ _ hj
    | RESET_QUIZ => exact absurd rfl h
    | _ => exact fun j hj => hj
  · cases a with
    | SET_ANSWER v =>
      intro j hj
      rw [JSObj.mem_keys_iff] at hj ⊢
      exact isSome_get_set _ _ _ _ hj
    | RESET_QUIZ => exact absurd rfl h
    | _ => exact fun j hj => hj
  · intro i hi
    exact copy_add_of_has _ _ hi

/-- C20, witness: answering in a session left by an earlier quiz keeps the attempted
question, the key of its answer and the visited and hinted questions. -/
theorem sets_only_grow_witness :
    Action.SET_ANSWER (Answer.single "A") ≠ Action.RESET_QUIZ ∧
    earlierSession.attemptedQuestions.has 0 = true ∧
    (quizReducer earlierSession (Action.SET_ANSWER (Answer.single "A"))).attemptedQuestions.has 0
      = true :=
  ⟨by simp, by decide,
    (sets_only_grow earlierSession (Action.SET_ANSWER (Answer.single "A")) (by simp)).2.1 0
      (by decide)⟩

/-! ## Indices and the list of questions -/

theorem all_toArray_iff (set : JSSet Int) (p : Int → Bool) :
    set.toArray.all p = true ↔ ∀ j, set.has j = true → p j = true := by
  unfold JSSet.toArray
  rw [List.all_eq_true]
  constructor
  · intro h j hj
    exact h j ((JSSet.has_iff set j).mp hj)
  · intro h j hj
    exact h j ((JSSet.has_iff set j).mpr hj)

theorem State.indicesInRange_iff (s : State) :
    s.indicesInRange = true ↔
      inRange s.questions.length s.currentQuestion = true ∧
      (∀ j, s.visitedQuestions.has j = true → inRange s.questions.length j = true) ∧
      (∀ j, s.attemptedQuestions.has j = true → inRange s.questions.length j = true) ∧
      (∀ j, s.bookmarkedQuestions.has j = true → inRange s.questions.length j = true) ∧
      (∀ j, s.reviewLaterQuestions.has j = true → inRange s.questions.length j = true) ∧
      (∀ j, s.hintUsed.has j = true → inRange s.questions.length j = true) := by
  unfold State.indicesInRange
  simp only [Bool.and_eq_true, all_toArray_iff]
  tauto

theorem has_copy_add_iff (old : JSSet Int) (i j : Int) :
    ((JSSet.ofIterable old.toArray).add i).has j = true ↔ (old.has j = true ∨ j = i) := by
  rw [JSSet.ofIterable_toArray, JSSet.has_add]

theorem has_toggle (old : JSSet Int) (i j : Int) (h : (toggle old i).has j = true) :
    old.has j = true ∨ j = i := by
  rw [toggle_has] at h
  by_cases hj : j = i
  · exact Or.inr hj
  · rw [if_neg hj] at h
    exact Or.inl h

theorem indicesInRange_step (s : State) (a : Action) (hs : s.indicesInRange = true)
    (ha : a.indicesInRange s.questions.length = true) :
    (quizReducer s a).indicesInRange = true ∧ (quizReducer s a).questions = s.questions := by
  refine ⟨?_, ?_⟩
  · rw [State.indicesInRange_iff] at hs ⊢
    obtain ⟨hc, hv, hat, hb, hr, hh⟩ := hs
    cases a with
    | SET_CURRENT_QUESTION i =>
      refine ⟨ha, ?_, hat, hb, hr, hh⟩
      intro j hj
      rcases (has_copy_add_iff _ _ _).mp hj with h1 | h1
      · exact hv j h1
      · rw [h1]
        exact ha
    | SET_ANSWER v =>
      refine ⟨hc, hv, ?_, hb, hr, hh⟩
      intro j hj
      rcases (has_copy_add_iff _ _ _).mp hj with h1 | h1
      · exact hat j h1
      · rw [h1]
        exact hc
    | TOGGLE_BOOKMARK i =>
      refine ⟨hc, hv, hat, ?_, hr, hh⟩
      intro j hj
      rcases has_toggle _ _ _ hj with h1 | h1
      · exact hb j h1
      · rw [h1]
        exact ha
    | TOGGLE_REVIEW_LATER i =>
      refine ⟨hc, hv, hat, hb, ?_, hh⟩
      intro j hj
      rcases has_toggle _ _ _ hj with h1 | h1
      · exact hr j h1
      · rw [h1]
        exact ha
    | SET_HINT_USED i =>
      refine ⟨hc, hv, hat, hb, hr, ?_⟩
      intro j hj
      rcases (has_copy_add_iff _ _ _).mp hj with h1 | h1
      · exact hh j h1
      · rw [h1]
        exact ha
    | LOAD_PERSISTED payload =>
      have ha2 : (((payload.getD {}).bookmarked.getD []).all (inRange s.questions.length)
          && ((payload.getD {}).reviewLater.getD []).all (inRange s.questions.length)) = true :=
        ha
      rw [Bool.and_eq_true, List.all_eq_true, List.all_eq_true] at ha2
      refine ⟨hc, hv, hat, ?_, ?_, hh⟩
      · intro j hj
        have hj2 : (JSSet.ofIterable ((payload.getD {}).bookmarked.getD [])).has j = true := hj
        rw [JSSet.has_iff, JSSet.mem_ofIterable] at hj2
        exact ha2.1 j hj2
      · intro j hj
        have hj2 : (JSSet.ofIterable ((payload.getD {}).reviewLater.getD [])).has j = true := hj
        rw [JSSet.has_iff, JSSet.mem_ofIterable] at hj2
        exact ha2.2 j hj2
    | START_QUIZ payload => exact absurd ha (by simp [Action.indicesInRange])
    | RESET_QUIZ => exact absurd ha (by simp [Action.indicesInRange])
    | _ => exact ⟨hc, hv, hat, hb, hr, hh⟩
  · cases a with
    | START_QUIZ payload => exact absurd ha (by simp [Action.indicesInRange])
    | RESET_QUIZ => exact absurd ha (by simp [Action.indicesInRange])
    | _ => rfl

theorem indicesInRange_dispatchAll (actions : List Action) (s : State)
    (hs : s.indicesInRange = true)
    (ha : ∀ a ∈ actions, a.indicesInRange s.questions.length = true) :
    (dispatchAll s actions).indicesInRange = true ∧
      (dispatchAll s actions).questions = s.questions := by
  induction actions generalizing s with
  | nil => exact ⟨hs, rfl⟩
  | cons a rest ih =>
    rw [dispatchAll_cons]
    obtain ⟨h1, h2⟩ := indicesInRange_step s a hs (ha a (List.mem_cons_self a rest))
    obtain ⟨h3, h4⟩ := ih (quizReducer s a) h1 (by
      intro b hb
      rw [h2]
      exact ha b (List.mem_cons_of_mem a hb))
    exact ⟨h3, h4.trans h2⟩

/-- C14, counterexample. In the state reached from the initial one by the start of a quiz
of one question, `SET_CURRENT_QUESTION 5` and `TOGGLE_BOOKMARK (-1)` are not ignored: they
change the state and put the indices 5 and -1 into `visitedQuestions` and
`bookmarkedQuestions`. -/
theorem out_of_range_index_stored :
    justStarted = dispatchAll initialState [Action.START_QUIZ nextQuiz] ∧
    justStarted.questions.length = 1 ∧
    (quizReducer justStarted (Action.SET_CURRENT_QUESTION 5)).visitedQuestions.has 5 = true ∧
    (quizReducer justStarted (Action.TOGGLE_BOOKMARK (-1))).bookmarkedQuestions.has (-1)
      = true ∧
    quizReducer justStarted (Action.SET_CURRENT_QUESTION 5) ≠ justStarted ∧
    quizReducer justStarted (Action.TOGGLE_BOOKMARK (-1)) ≠ justStarted := by
  decide

/-- C14, amended. After the start of a quiz with at least one question from the initial
state, as long as the actions dispatched hold no further `START_QUIZ` or `RESET_QUIZ` and
carry only indices of `[0, len(questions))`, every index of the five sets, and the current
question, lies in `[0, len(questions))`, and the list of questions is the one of the start.
The reducer makes no check of its own. -/
theorem indices_in_range (p : StartPayload) (actions : List Action) (hp : p.questions ≠ [])
    (h : ∀ a ∈ actions, a.indicesInRange p.questions.length = true) :
    (dispatchAll (quizReducer initialState (Action.START_QUIZ p)) actions).indicesInRange
      = true ∧
    (dispatchAll (quizReducer initialState (Action.START_QUIZ p)) actions).questions
      = p.questions := by
  apply indicesInRange_dispatchAll
  · rw [State.indicesInRange_iff]
    have hlen : 0 < p.questions.length := List.length_pos.mpr hp
    refine ⟨?_, ?_, ?_, ?_, ?_, ?_⟩
    · show inRange p.questions.length 0 = true
      simp [inRange, hlen]
    all_goals
      intro j hj
      have hj2 : (JSSet.empty : JSSet Int).has j = true := hj
      simp [JSSet.has, JSSet.empty] at hj2
  · exact h

/-- C14, witness: after the third of three questions has been opened and answered the
indices are in range. -/
theorem indices_in_range_witness :
    threeQuestions.questions ≠ [] ∧
    (∀ a ∈ [Action.SET_CURRENT_QUESTION 2, Action.SET_ANSWER (Answer.single "A")],
      a.indicesInRange threeQuestions.questions.length = true) ∧
    (dispatchAll (quizReducer initialState (Action.START_QUIZ threeQuestions))
      [Action.SET_CURRENT_QUESTION 2, Action.SET_ANSWER (Answer.single "A")]).indicesInRange
      = true :=
  ⟨by decide, by decide,
    (indices_in_range threeQuestions
      [Action.SET_CURRENT_QUESTION 2, Action.SET_ANSWER (Answer.single "A")]
      (by decide) (by decide)).1⟩

/-! ## Actions after completion -/

/-- C15, counterexample. In the completed session left by the earlier quiz, `SET_ANSWER`,
`UPDATE_TIMER` and `INCREMENT_TIME` are applied: each gives a state other than the one it
started from. -/
theorem completed_session_still_changes :
    earlierSession.quizCompleted = true ∧
    quizReducer earlierSession (Action.SET_ANSWER (Answer.single "5")) ≠ earlierSession ∧
    quizReducer earlierSession (Action.UPDATE_TIMER 5) ≠ earlierSession ∧
    (quizReducer earlierSession (Action.UPDATE_TIMER 5)).timeRemaining = 5 ∧
    quizReducer earlierSession (Action.INCREMENT_TIME 0) ≠ earlierSession := by
  decide

/-- C15, amended. The reducer does not look at `quizCompleted`: in a completed state
`SET_ANSWER v` still stores `v` for the current question, `UPDATE_TIMER t` still sets
`timeRemaining` to `t` and `INCREMENT_TIME i` still stores the binary64 sum of the time of
question `i` and 1, which is that time plus 1 as long as the sum is at most `2 ^ 53` in
magnitude; the three leave `quizCompleted` true and `quizResults` as they were. The guard is
in `QuizPage`, whose time-tracking effect dispatches no `INCREMENT_TIME` once the quiz is
completed. -/
theorem completed_not_guarded (s : State) (h : s.quizCompleted = true) (v : Answer)
    (t i : Int) :
    (quizReducer s (Action.SET_ANSWER v)).answers.get s.currentQuestion = some v ∧
    (quizReducer s (Action.UPDATE_TIMER t)).timeRemaining = t ∧
    (quizReducer s (Action.INCREMENT_TIME i)).timeSpentPerQuestion.get i =
      some (binary64Int ((s.timeSpentPerQuestion.get i).getD 0 + 1)) ∧
    (|(s.timeSpentPerQuestion.get i).getD 0 + 1| ≤ 2 ^ 53 →
      (quizReducer s (Action.INCREMENT_TIME i)).timeSpentPerQuestion.get i =
        some ((s.timeSpentPerQuestion.get i).getD 0 + 1)) ∧
    (quizReducer s (Action.SET_ANSWER v)).quizCompleted = true ∧
    (quizReducer s (Action.UPDATE_TIMER t)).quizCompleted = true ∧
    (quizReducer s (Action.INCREMENT_TIME i)).quizCompleted = true ∧
    (quizReducer s (Action.SET_ANSWER v)).quizResults = s.quizResults ∧
    (quizReducer s (Action.UPDATE_TIMER t)).quizResults = s.quizResults ∧
    (quizReducer s (Action.INCREMENT_TIME i)).quizResults = s.quizResults ∧
    timeTrackingTick s = [] := by
  have hinc : (quizReducer s (Action.INCREMENT_TIME i)).timeSpentPerQuestion.get i =
      some (binary64Int ((s.timeSpentPerQuestion.get i).getD 0 + 1)) :=
    JSObj.get_set_self _ _ _
  refine ⟨JSObj.get_set_self _ _ _, rfl, hinc, ?_, h, h, h, rfl, rfl, rfl, ?_⟩
  · intro hle
    rw [hinc, binary64Int_of_abs_le _ hle]
  · unfold timeTrackingTick
    rw [if_pos (Or.inr h)]

/-- C15, witness: the completed session left by the earlier quiz. -/
theorem completed_not_guarded_witness :
    earlierSession.quizCompleted = true ∧
    (quizReducer earlierSession (Action.UPDATE_TIMER 5)).timeRemaining = 5 ∧
    timeTrackingTick earlierSession = [] :=
  ⟨by decide,
    (completed_not_guarded earlierSession (by decide) (Answer.single "5") 5 0).2.1,
    (completed_not_guarded earlierSession (by decide) (Answer.single "5") 5
      0).2.2.2.2.2.2.2.2.2.2⟩

/-! ## Persistence -/

theorem append_left_cancel_string (p q1 q2 : String) (h : p ++ q1 = p ++ q2) : q1 = q2 := by
  have h2 := congrArg String.data h
  rw [String.data_append, String.data_append] at h2
  exact String.ext (List.append_cancel_left h2)

theorem append_ne_of_head_ne (p1 p2 q1 q2 : String) (c1 c2 : Char) (t1 t2 : List Char)
    (h1 : p1.data = c1 :: t1) (h2 : p2.data = c2 :: t2) (hc : c1 ≠ c2) :
    p1 ++ q1 ≠ p2 ++ q2 := by
  intro h
  have h3 := congrArg String.data h
  rw [String.data_append, String.data_append, h1, h2] at h3
  simp only [List.cons_append, List.cons.injEq] at h3
  exact hc h3.1

theorem bookmarksKey_ne_reviewLaterKey (q1 q2 : String) : bookmarksKey q1 ≠ reviewLaterKey q2 :=
  append_ne_of_head_ne _ _ _ _ 'b' 'r' _ _ rfl rfl (by decide)

theorem bookmarksKey_ne_notesKey (q1 q2 : String) : bookmarksKey q1 ≠ notesKey q2 :=
  append_ne_of_head_ne _ _ _ _ 'b' 'n' _ _ rfl rfl (by decide)

theorem bookmarksKey_ne_timeSpentKey (q1 q2 : String) : bookmarksKey q1 ≠ timeSpentKey q2 :=
  append_ne_of_head_ne _ _ _ _ 'b' 't' _ _ rfl rfl (by decide)

theorem reviewLaterKey_ne_notesKey (q1 q2 : String) : reviewLaterKey q1 ≠ notesKey q2 :=
  append_ne_of_head_ne _ _ _ _ 'r' 'n' _ _ rfl rfl (by decide)

theorem reviewLaterKey_ne_timeSpentKey (q1 q2 : String) : reviewLaterKey q1 ≠ timeSpentKey q2 :=
  append_ne_of_head_ne _ _ _ _ 'r' 't' _ _ rfl rfl (by decide)

theorem notesKey_ne_timeSpentKey (q1 q2 : String) : notesKey q1 ≠ timeSpentKey q2 :=
  append_ne_of_head_ne _ _ _ _ 'n' 't' _ _ rfl rfl (by decide)

theorem storageKeys_disjoint (q1 q2 : String) (h : q1 ≠ q2) :
    ∀ k1 ∈ storageKeys q1, ∀ k2 ∈ storageKeys q2, k1 ≠ k2 := by
  intro k1 h1 k2 h2
  simp only [storageKeys, List.mem_cons, List.mem_singleton, List.not_mem_nil, or_false]
    at h1 h2
  rcases h1 with rfl | rfl | rfl | rfl <;> rcases h2 with rfl | rfl | rfl | rfl
  · exact fun hh => h (append_left_cancel_string _ _ _ hh)
  · exact bookmarksKey_ne_reviewLaterKey _ _
  · exact bookmarksKey_ne_notesKey _ _
  · exact bookmarksKey_ne_timeSpentKey _ _
  · exact (bookmarksKey_ne_reviewLaterKey _ _).symm
  · exact fun hh => h (append_left_cancel_string _ _ _ hh)
  · exact reviewLaterKey_ne_notesKey _ _
  · exact reviewLaterKey_ne_timeSpentKey _ _
  · exact (bookmarksKey_ne_notesKey _ _).symm
  · exact (reviewLaterKey_ne_notesKey _ _).symm
  · exact fun hh => h (append_left_cancel_string _ _ _ hh)
  · exact notesKey_ne_timeSpentKey _ _
  · exact (bookmarksKey_ne_timeSpentKey _ _).symm
  · exact (reviewLaterKey_ne_timeSpentKey _ _).symm
  · exact (notesKey_ne_timeSpentKey _ _).symm
  · exact fun hh => h (append_left_cancel_string _ _ _ hh)

theorem quizIdSet_some (q : String) (hq : q ≠ "") : quizIdSet (some q) = some q := by
  simp [quizIdSet, hq]

theorem persistEffect_eq (s : State) (q : String) (hs : s.quizId = some q) (hq : q ≠ "")
    (storage : Storage) :
    persistEffect s storage =
      (((storage.set (bookmarksKey q)
        (StoredText.indexArray s.bookmarkedQuestions.toArray)).set
        (reviewLaterKey q) (StoredText.indexArray s.reviewLaterQuestions.toArray)).set
        (notesKey q) (StoredText.textObject s.notes)).set
        (timeSpentKey q) (StoredText.numberObject s.timeSpentPerQuestion) := by
  unfold persistEffect
  rw [hs, quizIdSet_some q hq]

theorem get_persistEffect_other (s : State) (storage : Storage) (k : String)
    (hk : ∀ q, s.quizId = some q → k ∉ storageKeys q) :
    (persistEffect s storage).get k = storage.get k := by
  cases hs : s.quizId with
  | none => simp [persistEffect, hs, quizIdSet]
  | some q =>
    by_cases hq : q = ""
    · simp [persistEffect, hs, quizIdSet, hq]
    · have hk2 := hk q hs
      simp only [storageKeys, List.mem_cons, List.mem_singleton, List.not_mem_nil, or_false,
        not_or] at hk2
      rw [persistEffect_eq s q hs hq, JSObj.get_set_ne _ _ _ _ hk2.2.2.2,
        JSObj.get_set_ne _ _ _ _ hk2.2.2.1, JSObj.get_set_ne _ _ _ _ hk2.2.1,
        JSObj.get_set_ne _ _ _ _ hk2.1]

theorem hydrateEffect_congr (quizId : Option String) (storage storage2 : Storage)
    (h : ∀ q, quizId = some q → ∀ k ∈ storageKeys q, storage2.get k = storage.get k) :
    hydrateEffect quizId storage2 = hydrateEffect quizId storage := by
  cases quizId with
  | none => rfl
  | some q =>
    by_cases hq : q = ""
    · simp [hydrateEffect, quizIdSet, hq]
    · have hb := h q rfl (bookmarksKey q) (by simp [storageKeys])
      have hr := h q rfl (reviewLaterKey q) (by simp [storageKeys])
      have hn := h q rfl (notesKey q) (by simp [storageKeys])
      have ht := h q rfl (timeSpentKey q) (by simp [storageKeys])
      unfold hydrateEffect
      rw [quizIdSet_some q hq]
      simp only [hb, hr, hn, ht]

/-- C16. For two different quiz identifiers, the four keys of the one differ from the four
keys of the other, the persist effect of a state of the first leaves the items of the second
as they are, and the hydration effect of the second reads the same before and after. -/
theorem persist_isolated (q1 q2 : String) (h : q1 ≠ q2) (s : State) (hs : s.quizId = some q1)
    (storage : Storage) :
    (∀ k1 ∈ storageKeys q1, ∀ k2 ∈ storageKeys q2, k1 ≠ k2) ∧
    (∀ k2 ∈ storageKeys q2, (persistEffect s storage).get k2 = storage.get k2) ∧
    hydrateEffect (some q2) (persistEffect s storage) = hydrateEffect (some q2) storage := by
  have hget : ∀ k2 ∈ storageKeys q2, (persistEffect s storage).get k2 = storage.get k2 := by
    intro k2 hk2
    apply get_persistEffect_other
    intro q hq hmem
    rw [hs] at hq
    cases hq
    exact storageKeys_disjoint q1 q2 h k2 hmem k2 hk2 rfl
  refine ⟨storageKeys_disjoint q1 q2 h, hget, ?_⟩
  apply hydrateEffect_congr
  intro q hq k hk
  cases hq
  exact hget k hk

/-- C16, witness: the bookmarks of the earlier quiz `q1` are written to a store that holds
notes of `q2`; what the hydration of `q2` reads is not changed. -/
theorem persist_isolated_witness :
    ("q1" : String) ≠ "q2" ∧ earlierSession.quizId = some "q1" ∧
    hydrateEffect (some "q2") (persistEffect earlierSession notesOnlyStorage) =
      hydrateEffect (some "q2") notesOnlyStorage :=
  ⟨by decide, by decide,
    (persist_isolated "q1" "q2" (by decide) earlierSession (by decide) notesOnlyStorage).2.2⟩

theorem loadPersisted_own_fields (s : State) :
    quizReducer s (Action.LOAD_PERSISTED (some
      { bookmarked := some s.bookmarkedQuestions.toArray
        reviewLater := some s.reviewLaterQuestions.toArray
        notes := some s.notes
        timeSpent := some s.timeSpentPerQuestion })) = s := by
  show ({ s with
    bookmarkedQuestions := JSSet.ofIterable s.bookmarkedQuestions.toArray
    reviewLaterQuestions := JSSet.ofIterable s.reviewLaterQuestions.toArray
    notes := s.notes
    timeSpentPerQuestion := s.timeSpentPerQuestion } : State) = s
  rw [JSSet.ofIterable_toArray, JSSet.ofIterable_toArray]

theorem hydrate_persist (s : State) (q : String) (hs : s.quizId = some q) (hq : q ≠ "")
    (storage : Storage) :
    hydrateEffect s.quizId (persistEffect s storage) =
      Hydration.dispatched
        { bookmarked := some s.bookmarkedQuestions.toArray
          reviewLater := some s.reviewLaterQuestions.toArray
          notes := some s.notes
          timeSpent := some s.timeSpentPerQuestion } := by
  have hb : (persistEffect s storage).get (bookmarksKey q) =
      some (StoredText.indexArray s.bookmarkedQuestions.toArray) := by
    rw [persistEffect_eq s q hs hq,
      JSObj.get_set_ne _ _ _ _ (bookmarksKey_ne_timeSpentKey q q),
      JSObj.get_set_ne _ _ _ _ (bookmarksKey_ne_notesKey q q),
      JSObj.get_set_ne _ _ _ _ (bookmarksKey_ne_reviewLaterKey q q), JSObj.get_set_self]
  have hr : (persistEffect s storage).get (reviewLaterKey q) =
      some (StoredText.indexArray s.reviewLaterQuestions.toArray) := by
    rw [persistEffect_eq s q hs hq,
      JSObj.get_set_ne _ _ _ _ (reviewLaterKey_ne_timeSpentKey q q),
      JSObj.get_set_ne _ _ _ _ (reviewLaterKey_ne_notesKey q q), JSObj.get_set_self]
  have hn : (persistEffect s storage).get (notesKey q) =
      some (StoredText.textObject s.notes) := by
    rw [persistEffect_eq s q hs hq,
      JSObj.get_set_ne _ _ _ _ (notesKey_ne_timeSpentKey q q), JSObj.get_set_self]
  have ht : (persistEffect s storage).get (timeSpentKey q) =
      some (StoredText.numberObject s.timeSpentPerQuestion) := by
    rw [persistEffect_eq s q hs hq, JSObj.get_set_self]
  unfold hydrateEffect
  rw [hs, quizIdSet_some q hq]
  simp only [hb, hr, hn, ht, parseIndexArray, parseTextObject, parseNumberObject]
  simp

/-- C17. For a state whose identifier is set, the hydration effect run on the store that the
persist effect of the state has written dispatches `LOAD_PERSISTED` with the two sets as
arrays and the two objects of the state; applied to any state this payload gives the four
persisted fields of the state, and applied to the state itself it gives the state back. -/
theorem persist_then_hydrate (s : State) (q : String) (hs : s.quizId = some q) (hq : q ≠ "")
    (storage : Storage) :
    hydrateEffect s.quizId (persistEffect s storage) =
      Hydration.dispatched
        { bookmarked := some s.bookmarkedQuestions.toArray
          reviewLater := some s.reviewLaterQuestions.toArray
          notes := some s.notes
          timeSpent := some s.timeSpentPerQuestion } ∧
    (∀ t : State,
      (quizReducer t (Action.LOAD_PERSISTED (some
        { bookmarked := some s.bookmarkedQuestions.toArray
          reviewLater := some s.reviewLaterQuestions.toArray
          notes := some s.notes
          timeSpent := some s.timeSpentPerQuestion }))).bookmarkedQuestions
        = s.bookmarkedQuestions ∧
      (quizReducer t (Action.LOAD_PERSISTED (some
        { bookmarked := some s.bookmarkedQuestions.toArray
          reviewLater := some s.reviewLaterQuestions.toArray
          notes := some s.notes
          timeSpent := some s.timeSpentPerQuestion }))).reviewLaterQuestions
        = s.reviewLaterQuestions ∧
      (quizReducer t (Action.LOAD_PERSISTED (some
        { bookmarked := some s.bookmarkedQuestions.toArray
          reviewLater := some s.reviewLaterQuestions.toArray
          notes := some s.notes
          timeSpent := some s.timeSpentPerQuestion }))).notes = s.notes ∧
      (quizReducer t (Action.LOAD_PERSISTED (some
        { bookmarked := some s.bookmarkedQuestions.toArray
          reviewLater := some s.reviewLaterQuestions.toArray
          notes := some s.notes
          timeSpent := some s.timeSpentPerQuestion }))).timeSpentPerQuestion
        = s.timeSpentPerQuestion) ∧
    afterHydration s (persistEffect s storage) = some s := by
  refine ⟨hydrate_persist s q hs hq storage, ?_, ?_⟩
  · intro t
    exact ⟨JSSet.ofIterable_toArray _, JSSet.ofIterable_toArray _, rfl, rfl⟩
  · unfold afterHydration
    rw [hydrate_persist s q hs hq storage]
    simp only
    rw [loadPersisted_own_fields]

/-- C17, witness: the session left by the earlier quiz `q1`, with question 0 bookmarked, is
persisted to an empty store and hydrated from it. -/
theorem persist_then_hydrate_witness :
    earlierSession.quizId = some "q1" ∧ ("q1" : String) ≠ "" ∧
    afterHydration earlierSession (persistEffect earlierSession JSObj.empty)
      = some earlierSession :=
  ⟨by decide, by decide,
    (persist_then_hydrate earlierSession "q1" (by decide) (by decide) JSObj.empty).2.2⟩

/-- C18, counterexample. With bookmarks of `q2` that are not JSON, the hydration effect
dispatches nothing: the stale session keeps question 0 bookmarked instead of getting an
empty set, and the well-formed notes of `q2` are not loaded, neither into the stale session
nor into a fresh one. -/
theorem malformed_item_blocks_hydration :
    staleSession.quizId = some "q2" ∧
    hydrateEffect staleSession.quizId brokenStorage = Hydration.caught ∧
    afterHydration staleSession brokenStorage = some staleSession ∧
    staleSession.bookmarkedQuestions.has 0 = true ∧
    brokenStorage.get (notesKey "q2") = some (StoredText.textObject ⟨[(0, "remember")]⟩) ∧
    staleSession.notes.get 0 = none ∧
    afterHydration justStarted brokenStorage = some justStarted ∧
    justStarted.notes.get 0 = none := by
  decide

theorem parsed_cases (α : Type) (p : Parsed α) (h1 : p ≠ Parsed.syntaxError)
    (h2 : p ≠ Parsed.otherShape) : ∃ a, p = Parsed.value a := by
  cases p with
  | value a => exact ⟨a, rfl⟩
  | syntaxError => exact absurd rfl h1
  | otherShape => exact absurd rfl h2

theorem afterHydration_values (s : State) (q : String) (hs : s.quizId = some q) (hq : q ≠ "")
    (storage : Storage) (b r : List Int) (n : JSObj Int String) (t : JSObj Int Int)
    (hb : parseIndexArray (storage.get (bookmarksKey q)) = Parsed.value b)
    (hr : parseIndexArray (storage.get (reviewLaterKey q)) = Parsed.value r)
    (hn : parseTextObject (storage.get (notesKey q)) = Parsed.value n)
    (ht : parseNumberObject (storage.get (timeSpentKey q)) = Parsed.value t) :
    afterHydration s storage =
      some { s with
        bookmarkedQuestions := JSSet.ofIterable b
        reviewLaterQuestions := JSSet.ofIterable r
        notes := n
        timeSpentPerQuestion := t } := by
  have hh : hydrateEffect s.quizId storage =
      Hydration.dispatched
        { bookmarked := some b, reviewLater := some r, notes := some n, timeSpent := some t }
      := by
    unfold hydrateEffect
    rw [hs, quizIdSet_some q hq]
    simp only [hb, hr, hn, ht]
    simp
  unfold afterHydration
  rw [hh]
  rfl

/-- C18, amended. For a state whose identifier is set and every store: when one of the four
stored texts is a non-empty text that is not JSON, the hydration effect dispatches nothing
and the state, with its four persisted fields, stays as it was; when none is and the four
items are of the expected shapes, the four items parse and every field is replaced by what
its item parses to, which is the empty collection for an item that is absent or the empty
string and the stored value for a well-formed one. A stored text that is valid JSON of
another shape is not covered. -/
theorem hydration_spec (s : State) (q : String) (hs : s.quizId = some q) (hq : q ≠ "")
    (storage : Storage) :
    ((parseIndexArray (storage.get (bookmarksKey q)) = Parsed.syntaxError ∨
      parseIndexArray (storage.get (reviewLaterKey q)) = Parsed.syntaxError ∨
      parseTextObject (storage.get (notesKey q)) = Parsed.syntaxError ∨
      parseNumberObject (storage.get (timeSpentKey q)) = Parsed.syntaxError) →
      afterHydration s storage = some s) ∧
    (∀ (b r : List Int) (n : JSObj Int String) (t : JSObj Int Int),
      parseIndexArray (storage.get (bookmarksKey q)) = Parsed.value b →
      parseIndexArray (storage.get (reviewLaterKey q)) = Parsed.value r →
      parseTextObject (storage.get (notesKey q)) = Parsed.value n →
      parseNumberObject (storage.get (timeSpentKey q)) = Parsed.value t →
      afterHydration s storage =
        some { s with
          bookmarkedQuestions := JSSet.ofIterable b
          reviewLaterQuestions := JSSet.ofIterable r
          notes := n
          timeSpentPerQuestion := t }) ∧
    (expectedShapes q storage →
      ¬ (parseIndexArray (storage.get (bookmarksKey q)) = Parsed.syntaxError ∨
        parseIndexArray (storage.get (reviewLaterKey q)) = Parsed.syntaxError ∨
        parseTextObject (storage.get (notesKey q)) = Parsed.syntaxError ∨
        parseNumberObject (storage.get (timeSpentKey q)) = Parsed.syntaxError) →
      ∃ (b r : List Int) (n : JSObj Int String) (t : JSObj Int Int),
        parseIndexArray (storage.get (bookmarksKey q)) = Parsed.value b ∧
        parseIndexArray (storage.get (reviewLaterKey q)) = Parsed.value r ∧
        parseTextObject (storage.get (notesKey q)) = Parsed.value n ∧
        parseNumberObject (storage.get (timeSpentKey q)) = Parsed.value t ∧
        afterHydration s storage =
          some { s with
            bookmarkedQuestions := JSSet.ofIterable b
            reviewLaterQuestions := JSSet.ofIterable r
            notes := n
            timeSpentPerQuestion := t }) ∧
    (∀ text : String,
      parseIndexArray (some (StoredText.invalid text)) = Parsed.syntaxError ∧
      parseTextObject (some (StoredText.invalid text)) = Parsed.syntaxError ∧
      parseNumberObject (some (StoredText.invalid text)) = Parsed.syntaxError) ∧
    (parseIndexArray none = Parsed.value [] ∧
      parseIndexArray (some StoredText.empty) = Parsed.value [] ∧
      parseTextObject none = Parsed.value JSObj.empty ∧
      parseTextObject (some StoredText.empty) = Parsed.value JSObj.empty ∧
      parseNumberObject none = Parsed.value JSObj.empty ∧
      parseNumberObject (some StoredText.empty) = Parsed.value JSObj.empty) ∧
    (∀ (l : List Int) (n : JSObj Int String) (t : JSObj Int Int),
      parseIndexArray (some (StoredText.indexArray l)) = Parsed.value l ∧
      parseTextObject (some (StoredText.textObject n)) = Parsed.value n ∧
      parseNumberObject (some (StoredText.numberObject t)) = Parsed.value t) := by
  refine ⟨?_, afterHydration_values s q hs hq storage, ?_, fun _ => ⟨rfl, rfl, rfl⟩,
    ⟨rfl, rfl, rfl, rfl, rfl, rfl⟩, fun _ _ _ => ⟨rfl, rfl, rfl⟩⟩
  · intro h
    have hh : hydrateEffect s.quizId storage = Hydration.caught := by
      unfold hydrateEffect
      rw [hs, quizIdSet_some q hq]
      simp only [if_pos h]
    unfold afterHydration
    rw [hh]
  · intro hshape hno
    obtain ⟨b, hb⟩ := parsed_cases _ _ (fun h => hno (Or.inl h)) hshape.1
    obtain ⟨r, hr⟩ := parsed_cases _ _ (fun h => hno (Or.inr (Or.inl h))) hshape.2.1
    obtain ⟨n, hn⟩ := parsed_cases _ _ (fun h => hno (Or.inr (Or.inr (Or.inl h)))) hshape.2.2.1
    obtain ⟨t, ht⟩ := parsed_cases _ _ (fun h => hno (Or.inr (Or.inr (Or.inr h)))) hshape.2.2.2
    exact ⟨b, r, n, t, hb, hr, hn, ht, afterHydration_values s q hs hq storage b r n t hb hr hn ht⟩

/-- C18, witness: in a store that holds only the notes of `q2`, the stale session loses the
bookmark left by the earlier quiz and gets the stored note. -/
theorem hydration_spec_witness :
    staleSession.quizId = some "q2" ∧ ("q2" : String) ≠ "" ∧
    expectedShapes "q2" notesOnlyStorage ∧
    afterHydration staleSession notesOnlyStorage =
      some { staleSession with
        bookmarkedQuestions := JSSet.ofIterable []
        reviewLaterQuestions := JSSet.ofIterable []
        notes := ⟨[(0, "remember")]⟩
        timeSpentPerQuestion := JSObj.empty } :=
  ⟨by decide, by decide, by unfold expectedShapes; decide,
    (hydration_spec staleSession "q2" (by decide) (by decide) notesOnlyStorage).2.1
      [] [] ⟨[(0, "remember")]⟩ JSObj.empty (by decide) (by decide) (by decide) (by decide)⟩

/-! ## The countdown -/

theorem timerTick_of_zero (run : TimerRun) (h : run.state.timeRemaining ≤ 0) :
    timerTick run = run := by
  unfold timerTick
  rw [if_pos h]

theorem timerTick_of_pos (run : TimerRun) (h : ¬ run.state.timeRemaining ≤ 0) :
    (timerTick run).state.timeRemaining = run.state.timeRemaining - 1 ∧
    (timerTick run).timeUpCalls =
      run.timeUpCalls + (if run.state.timeRemaining - 1 ≤ 0 then 1 else 0) := by
  unfold timerTick
  rw [if_neg h]
  refine ⟨rfl, ?_⟩
  show timerEffect (quizReducer run.state (Action.UPDATE_TIMER (run.state.timeRemaining - 1)))
    run.timeUpCalls = _
  unfold timerEffect
  show (if run.state.timeRemaining - 1 ≤ 0 then run.timeUpCalls + 1 else run.timeUpCalls) = _
  split <;> rfl

theorem timerTicks_spec (k : Nat) (run : TimerRun) (m : Nat)
    (h : run.state.timeRemaining = (m : Int)) :
    (timerTicks k run).state.timeRemaining = ((m - k : Nat) : Int) ∧
    (timerTicks k run).timeUpCalls =
      run.timeUpCalls + (if 1 ≤ m ∧ m ≤ k then 1 else 0) := by
  induction k generalizing run m with
  | zero =>
    refine ⟨by simpa [timerTicks] using h, ?_⟩
    have hne : ¬ (1 ≤ m ∧ m ≤ 0) := by omega
    rw [if_neg hne]
    rfl
  | succ k ih =>
    show (timerTicks k (timerTick run)).state.timeRemaining = _ ∧
      (timerTicks k (timerTick run)).timeUpCalls = _
    cases m with
    | zero =>
      have hz : run.state.timeRemaining ≤ 0 := by rw [h]; simp
      rw [timerTick_of_zero run hz]
      obtain ⟨h1, h2⟩ := ih run 0 h
      refine ⟨by simpa using h1, ?_⟩
      rw [h2]
      simp
    | succ m =>
      have hpos : ¬ run.state.timeRemaining ≤ 0 := by rw [h]; omega
      obtain ⟨ht, hc⟩ := timerTick_of_pos run hpos
      have hm : (timerTick run).state.timeRemaining = (m : Int) := by
        rw [ht, h]
        omega
      obtain ⟨h1, h2⟩ := ih (timerTick run) m hm
      refine ⟨?_, ?_⟩
      · rw [h1]
        congr 1
        omega
      · rw [h2, hc, h]
        by_cases hm0 : m = 0
        · subst hm0
          simp
        · have e1 : ¬ ((((m + 1 : Nat) : Int)) - 1 ≤ 0) := by omega
          rw [if_neg e1]
          by_cases hk : m ≤ k
          · have e2 : 1 ≤ m ∧ m ≤ k := ⟨by omega, hk⟩
            have e3 : 1 ≤ m + 1 ∧ m + 1 ≤ k + 1 := ⟨by omega, by omega⟩
            rw [if_pos e2, if_pos e3]
          · have e2 : ¬ (1 ≤ m ∧ m ≤ k) := fun hh => hk hh.2
            have e3 : ¬ (1 ≤ m + 1 ∧ m + 1 ≤ k + 1) := fun hh => hk (by omega)
            rw [if_neg e2, if_neg e3]

/-- C19. Starting from `timeRemaining = n` with `n ≥ 1` and with ticks of `Timer` only,
after `k` ticks `timeRemaining` is `n - k` as long as `k ≤ n` and 0 from then on (it goes down
by 1 at each tick, is 0 after exactly `n` ticks and is never negative), and `onTimeUp` has
been called 0 times before the `n`-th tick and exactly once from the `n`-th tick on. -/
theorem timer_countdown (s : State) (n : Nat) (hn : 1 ≤ n) (hs : s.timeRemaining = (n : Int))
    (k : Nat) :
    (timerTicks k (timerMount s)).state.timeRemaining = ((n - k : Nat) : Int) ∧
    (timerTicks k (timerMount s)).timeUpCalls = (if n ≤ k then 1 else 0) ∧
    (k < n → (timerTicks (k + 1) (timerMount s)).state.timeRemaining
      = (timerTicks k (timerMount s)).state.timeRemaining - 1) ∧
    0 ≤ (timerTicks k (timerMount s)).state.timeRemaining := by
  have hmount : (timerMount s).timeUpCalls = 0 := by
    unfold timerMount timerEffect
    have hpos : ¬ s.timeRemaining ≤ 0 := by rw [hs]; omega
    simp [hpos]
  obtain ⟨h1, h2⟩ := timerTicks_spec k (timerMount s) n hs
  obtain ⟨h3, _⟩ := timerTicks_spec (k + 1) (timerMount s) n hs
  refine ⟨h1, ?_, ?_, ?_⟩
  · rw [h2, hmount, Nat.zero_add]
    by_cases hk : n ≤ k
    · rw [if_pos hk, if_pos ⟨hn, hk⟩]
    · rw [if_neg hk, if_neg (fun hh => hk hh.2)]
  · intro hk
    rw [h3, h1]
    omega
  · rw [h1]
    exact Int.ofNat_nonneg _

/-- C19, witness: from 5 seconds, five ticks give 0 and one call of `onTimeUp`. -/
theorem timer_countdown_witness :
    (1 : Nat) ≤ 5 ∧
    ({ initialState with timeRemaining := 5 } : State).timeRemaining = ((5 : Nat) : Int) ∧
    (timerTicks 5 (timerMount { initialState with timeRemaining := 5 })).state.timeRemaining
      = 0 ∧
    (timerTicks 5 (timerMount { initialState with timeRemaining := 5 })).timeUpCalls = 1 ∧
    (timerTicks 4 (timerMount { initialState with timeRemaining := 5 })).timeUpCalls = 0 :=
  ⟨by decide, rfl,
    (timer_countdown { initialState with timeRemaining := 5 } 5 (by decide) rfl 5).1,
    (timer_countdown { initialState with timeRemaining := 5 } 5 (by decide) rfl 5).2.1,
    (timer_countdown { initialState with timeRemaining := 5 } 5 (by decide) rfl 4).2.1⟩

/-! ## Time spent -/

theorem incrementTime_get (s : State) (i : Int) :
    (quizReducer s (Action.INCREMENT_TIME i)).timeSpentPerQuestion.get i =
      some (binary64Int ((s.timeSpentPerQuestion.get i).getD 0 + 1)) :=
  JSObj.get_set_self _ _ _

theorem binary64Int_two_pow_succ : binary64Int (9007199254740992 + 1) = 9007199254740992 := by
  have hr : roundHalfEven ((9007199254740993 : ℚ) / 2 ^ ((53 : ℤ) - 52)) = 4503599627370496 :=
    roundHalfEven_tie_even _ 4503599627370496 (by norm_num) (by norm_num)
  have hb := binary64_eq 9007199254740993 53 4503599627370496 (by norm_num) (by norm_num)
    (by norm_num) hr
  unfold binary64Int
  rw [show (((9007199254740992 + 1 : ℤ)) : ℚ) = 9007199254740993 by norm_num, hb]
  norm_num

/-- C21, counterexample. In a session whose stored time for question 0 is `2 ^ 53` seconds,
a non-negative integer, `INCREMENT_TIME 0` stores `2 ^ 53` again: the binary64 sum of
`2 ^ 53` and 1 is `2 ^ 53`, and the state is the one the action started from. -/
theorem increment_time_saturates :
    longSession.timeSpentPerQuestion.get 0 = some 9007199254740992 ∧
    (quizReducer longSession (Action.INCREMENT_TIME 0)).timeSpentPerQuestion.get 0
      = some 9007199254740992 ∧
    (quizReducer longSession (Action.INCREMENT_TIME 0)).timeSpentPerQuestion.get 0
      ≠ some (9007199254740992 + 1) ∧
    quizReducer longSession (Action.INCREMENT_TIME 0) = longSession := by
  have hget : longSession.timeSpentPerQuestion.get 0 = some 9007199254740992 := by decide
  have hinc := incrementTime_get longSession 0
  rw [hget] at hinc
  have hval : (quizReducer longSession (Action.INCREMENT_TIME 0)).timeSpentPerQuestion.get 0
      = some 9007199254740992 := by
    rw [hinc]
    exact congrArg some binary64Int_two_pow_succ
  refine ⟨hget, hval, ?_, ?_⟩
  · rw [hval]
    decide
  · show { longSession with
        timeSpentPerQuestion := longSession.timeSpentPerQuestion.set 0
          (binary64Int ((longSession.timeSpentPerQuestion.get 0).getD 0 + 1)) } = longSession
    rw [hget]
    show { longSession with
        timeSpentPerQuestion := longSession.timeSpentPerQuestion.set 0
          (binary64Int (9007199254740992 + 1)) } = longSession
    rw [binary64Int_two_pow_succ]
    decide

/-- C21, amended. When the time of question `i`, a missing entry counting as 0, is a
non-negative integer below `2 ^ 53`, the action `INCREMENT_TIME i` makes
`timeSpentPerQuestion[i]` its former value plus 1, keeps the entry of every other index and
leaves every other field of the state as it was. -/
theorem increment_time_spec (s : State) (i : Int)
    (h0 : 0 ≤ (s.timeSpentPerQuestion.get i).getD 0)
    (h1 : (s.timeSpentPerQuestion.get i).getD 0 < 2 ^ 53) :
    (quizReducer s (Action.INCREMENT_TIME i)).timeSpentPerQuestion.get i =
      some ((s.timeSpentPerQuestion.get i).getD 0 + 1) ∧
    (s.timeSpentPerQuestion.get i = none →
      (quizReducer s (Action.INCREMENT_TIME i)).timeSpentPerQuestion.get i = some 1) ∧
    (∀ v, s.timeSpentPerQuestion.get i = some v →
      (quizReducer s (Action.INCREMENT_TIME i)).timeSpentPerQuestion.get i = some (v + 1)) ∧
    (∀ j, j ≠ i →
      (quizReducer s (Action.INCREMENT_TIME i)).timeSpentPerQuestion.get j =
        s.timeSpentPerQuestion.get j) ∧
    quizReducer s (Action.INCREMENT_TIME i) =
      { s with
        timeSpentPerQuestion := (quizReducer s (Action.INCREMENT_TIME i)).timeSpentPerQuestion }
    := by
  have h : (quizReducer s (Action.INCREMENT_TIME i)).timeSpentPerQuestion.get i =
      some ((s.timeSpentPerQuestion.get i).getD 0 + 1) := by
    rw [incrementTime_get, binary64Int_of_abs_le]
    rw [abs_of_nonneg (by omega)]
    omega
  refine ⟨h, ?_, ?_, ?_, rfl⟩
  · intro hnone
    rw [h, hnone]
    rfl
  · intro v hv
    rw [h, hv]
    rfl
  · intro j hj
    exact JSObj.get_set_ne _ _ _ _ hj

/-- C21, witness: a session whose stored time for question 0 is 41 seconds gets 42. -/
theorem increment_time_spec_witness :
    0 ≤ (timedSession.timeSpentPerQuestion.get 0).getD 0 ∧
    (timedSession.timeSpentPerQuestion.get 0).getD 0 < 2 ^ 53 ∧
    (quizReducer timedSession (Action.INCREMENT_TIME 0)).timeSpentPerQuestion.get 0
      = some 42 :=
  ⟨by decide, by decide,
    (increment_time_spec timedSession 0 (by decide) (by decide)).2.2.1 41 (by decide)⟩

theorem trackedTimes_cons (q : Question) (qs : List Question) :
    trackedTimes (q :: qs) =
      match q.time_spent with
      | some t => if 0 < t then t :: trackedTimes qs else trackedTimes qs
      | none => trackedTimes qs := by
  unfold trackedTimes
  cases h : q.time_spent with
  | none => simp [List.filterMap_cons, h]
  | some t =>
    by_cases ht : 0 < t
    · simp [List.filterMap_cons, h, ht]
    · simp [List.filterMap_cons, h, ht]

theorem mem_trackedTimes (qs : List Question) (t : Int) :
    t ∈ trackedTimes qs ↔ ∃ q ∈ qs, q.time_spent = some t ∧ 0 < t := by
  induction qs with
  | nil => simp [trackedTimes]
  | cons q rest ih =>
    rw [trackedTimes_cons]
    cases h : q.time_spent with
    | none => simp [ih, h]
    | some u =>
      by_cases hu : 0 < u
      · simp only [hu, if_true, List.mem_cons, ih, exists_eq_or_imp, h, Option.some.injEq]
        constructor
        · rintro (rfl | hx)
          · exact Or.inl ⟨rfl, hu⟩
          · exact Or.inr hx
        · rintro (⟨rfl, _⟩ | hx)
          · exact Or.inl rfl
          · exact Or.inr hx
      · simp only [hu, if_false, List.mem_cons, ih, exists_eq_or_imp, h, Option.some.injEq]
        constructor
        · intro hx
          exact Or.inr hx
        · rintro (⟨rfl, ht⟩ | hx)
          · exact absurd ht hu
          · exact hx

theorem trackedTimes_pos (qs : List Question) : ∀ t ∈ trackedTimes qs, 0 < t := by
  intro t ht
  obtain ⟨_, _, _, h⟩ := (mem_trackedTimes qs t).mp ht
  exact h

theorem length_le_sum_of_pos (l : List Int) (h : ∀ t ∈ l, 0 < t) : (l.length : Int) ≤ l.sum := by
  induction l with
  | nil => simp
  | cons a rest ih =>
    have ha : 0 < a := h a (List.mem_cons_self _ _)
    have hr := ih (fun t ht => h t (List.mem_cons_of_mem _ ht))
    rw [List.sum_cons, List.length_cons]
    push_cast
    omega

theorem length_le_sum_trackedTimes (qs : List Question) :
    ((trackedTimes qs).length : Int) ≤ (trackedTimes qs).sum :=
  length_le_sum_of_pos _ (trackedTimes_pos qs)

theorem pass_timeCount (qs : List Question) (st : PassState) :
    (qs.foldl passStep st).timeCount = st.timeCount + (trackedTimes qs).length := by
  induction qs generalizing st with
  | nil => simp [trackedTimes]
  | cons q rest ih =>
    rw [List.foldl_cons, ih (passStep st q), trackedTimes_cons]
    unfold passStep
    cases q.time_spent with
    | none => simp
    | some t =>
      by_cases ht : 0 < t
      · simp only [ht, if_true, List.length_cons]
        omega
      · simp [ht]

theorem pass_totalTime (qs : List Question) (st : PassState) (h0 : 0 ≤ st.totalTime)
    (h : st.totalTime + (trackedTimes qs).sum ≤ 2 ^ 53) :
    (qs.foldl passStep st).totalTime = st.totalTime + (trackedTimes qs).sum := by
  induction qs generalizing st with
  | nil => simp [trackedTimes]
  | cons q rest ih =>
    have hrest := length_le_sum_trackedTimes rest
    rw [List.foldl_cons]
    rw [trackedTimes_cons] at h ⊢
    cases hq : q.time_spent with
    | none =>
      rw [hq] at h
      have hstep : (passStep st q).totalTime = st.totalTime := by
        unfold passStep
        rw [hq]
      rw [ih (passStep st q) (by rw [hstep]; exact h0) (by rw [hstep]; exact h), hstep]
    | some t =>
      rw [hq] at h
      by_cases ht : 0 < t
      · simp only [ht, if_true, List.sum_cons] at h ⊢
        have hstep : (passStep st q).totalTime = st.totalTime + t := by
          unfold passStep
          rw [hq]
          simp only [ht, if_true]
          apply binary64Int_of_abs_le
          rw [abs_of_nonneg (by omega)]
          omega
        rw [ih (passStep st q) (by rw [hstep]; omega) (by rw [hstep]; omega), hstep]
        omega
      · simp only [ht, if_false] at h ⊢
        have hstep : (passStep st q).totalTime = st.totalTime := by
          unfold passStep
          rw [hq]
          simp only [ht, if_false]
        rw [ih (passStep st q) (by rw [hstep]; exact h0) (by rw [hstep]; exact h), hstep]

theorem reportPage_timeCount (r : Results) :
    (ReportPage r).timeCount = (trackedTimes r.questions).length := by
  have h := pass_timeCount r.questions
    { matrix := (computeMemo r.questions).matrix, totalHints := 0, totalTime := 0, timeCount := 0 }
  simp only [Nat.zero_add] at h
  exact h

theorem reportPage_avgTime_zero (r : Results) (h : (trackedTimes r.questions).length = 0) :
    (ReportPage r).avgTime = JSNumber.fin 0 := by
  have hc := reportPage_timeCount r
  rw [h] at hc
  show (if (aggregationPass r.questions (computeMemo r.questions).matrix).timeCount ≠ 0 then
      JSNumber.round (JSNumber.div
        (JSNumber.ofInt (aggregationPass r.questions (computeMemo r.questions).matrix).totalTime)
        (JSNumber.ofNat (aggregationPass r.questions (computeMemo r.questions).matrix).timeCount))
    else JSNumber.fin 0) = _
  have hc2 : (aggregationPass r.questions (computeMemo r.questions).matrix).timeCount = 0 := hc
  rw [hc2]
  rfl

theorem reportPage_avgTime (r : Results) (h : (trackedTimes r.questions).sum ≤ 2 ^ 53) :
    (ReportPage r).avgTime =
      (if (trackedTimes r.questions).length ≠ 0 then
        JSNumber.round (JSNumber.div (JSNumber.ofInt (trackedTimes r.questions).sum)
          (JSNumber.ofNat (trackedTimes r.questions).length))
      else JSNumber.fin 0) := by
  have h1 := pass_totalTime r.questions
    { matrix := (computeMemo r.questions).matrix, totalHints := 0, totalTime := 0, timeCount := 0 }
    (le_refl _) (by simpa using h)
  have h2 := pass_timeCount r.questions
    { matrix := (computeMemo r.questions).matrix, totalHints := 0, totalTime := 0, timeCount := 0 }
  simp only [Int.zero_add, Nat.zero_add] at h1 h2
  show (if (aggregationPass r.questions (computeMemo r.questions).matrix).timeCount ≠ 0 then
      JSNumber.round (JSNumber.div
        (JSNumber.ofInt (aggregationPass r.questions (computeMemo r.questions).matrix).totalTime)
        (JSNumber.ofNat (aggregationPass r.questions (computeMemo r.questions).matrix).timeCount))
    else JSNumber.fin 0) = _
  unfold aggregationPass
  rw [h1, h2]

theorem trackedTimes_timedResults : trackedTimes timedResults.questions = [3, 4] := by
  decide

theorem trackedTimes_longResults :
    trackedTimes longResults.questions =
      [2251799813685249, 2251799813685248, 2251799813685248] := by
  decide

theorem binary64_longMean :
    binary64 ((6755399441055745 : ℚ) / 3) = 4503599627370497 / 2 := by
  have hr : roundHalfEven ((6755399441055745 : ℚ) / 3 / 2 ^ ((51 : ℤ) - 52))
      = 4503599627370496 + 1 :=
    roundHalfEven_of_gt _ 4503599627370496 (by norm_num) (by norm_num)
  have hb := binary64_eq ((6755399441055745 : ℚ) / 3) 51 (4503599627370496 + 1)
    (by norm_num) (by norm_num) (by norm_num) hr
  rw [hb]
  norm_num

/-- C22, counterexample. For three questions that took `2 ^ 51 + 1`, `2 ^ 51` and `2 ^ 51`
seconds the report shows the average `2 ^ 51 + 1`, while the integer nearest to their mean
`2 ^ 51 + 1 / 3` is `2 ^ 51`: the quotient `totalTime / timeCount` is rounded to the binary64
number `2 ^ 51 + 1 / 2` before `Math.round` rounds it up. -/
theorem avg_time_off_by_one :
    trackedTimes longResults.questions =
      [2251799813685249, 2251799813685248, 2251799813685248] ∧
    (ReportPage longResults).avgTime = JSNumber.fin 2251799813685249 ∧
    (⌊((trackedTimes longResults.questions).sum : ℚ) / (trackedTimes longResults.questions).length
      + 1 / 2⌋ : ℤ) = 2251799813685248 := by
  refine ⟨trackedTimes_longResults, ?_, ?_⟩
  · rw [reportPage_avgTime longResults (by rw [trackedTimes_longResults]; decide),
      trackedTimes_longResults]
    have hs : JSNumber.ofInt
        ([2251799813685249, 2251799813685248, 2251799813685248] : List Int).sum
        = JSNumber.fin 6755399441055745 := by
      have := JSNumber.ofInt_of_abs_le 6755399441055745 (by norm_num)
      simpa using this
    have hn : JSNumber.ofNat
        ([2251799813685249, 2251799813685248, 2251799813685248] : List Int).length
        = JSNumber.fin 3 := by
      have := JSNumber.ofNat_of_le 3 (by norm_num)
      simpa using this
    have hd : JSNumber.ofRat ((6755399441055745 : ℚ) / 3) = JSNumber.fin (4503599627370497 / 2) := by
      unfold JSNumber.ofRat
      rw [binary64_longMean, if_neg, if_neg]
      · exact not_le.mpr (lt_trans (by norm_num : -(2 : ℚ) ^ 1024 < 0) (by norm_num))
      · exact not_le.mpr (lt_trans (by norm_num : (4503599627370497 : ℚ) / 2 < 2 ^ 53)
          (by norm_num))
    rw [hs, hn, if_pos (by decide)]
    unfold JSNumber.div
    simp only [if_neg (by norm_num : ¬ (3 : ℚ) = 0), hd]
    have hf : ⌊(4503599627370497 : ℚ) / 2 + 1 / 2⌋ = 2251799813685249 := by
      rw [Int.floor_eq_iff]
      constructor <;> norm_num
    unfold JSNumber.round
    simp only
    rw [hf]
    norm_num
  · rw [trackedTimes_longResults, Int.floor_eq_iff]
    constructor <;> norm_num

/-- C22, amended. The average time of the report is computed over the values of
`time_spent` that are numbers greater than 0 and over nothing else: `timeCount` is their
number, `avgTime` is 0 when there is none, and, when their sum is below `2 ^ 52`, it is
otherwise the integer nearest to their mean, a mean half-way between two integers being
rounded up. -/
theorem avg_time_spec (r : Results) (hsum : (trackedTimes r.questions).sum < 2 ^ 52) :
    (∀ t, t ∈ trackedTimes r.questions ↔ ∃ q ∈ r.questions, q.time_spent = some t ∧ 0 < t) ∧
    (ReportPage r).timeCount = (trackedTimes r.questions).length ∧
    ((trackedTimes r.questions).length = 0 → (ReportPage r).avgTime = JSNumber.fin 0) ∧
    ((trackedTimes r.questions).length ≠ 0 →
      (ReportPage r).avgTime =
        JSNumber.fin (⌊((trackedTimes r.questions).sum : ℚ) / (trackedTimes r.questions).length
          + 1 / 2⌋ : ℤ) ∧
      ((⌊((trackedTimes r.questions).sum : ℚ) / (trackedTimes r.questions).length
          + 1 / 2⌋ : ℤ) : ℚ) - 1 / 2
        ≤ ((trackedTimes r.questions).sum : ℚ) / (trackedTimes r.questions).length ∧
      ((trackedTimes r.questions).sum : ℚ) / (trackedTimes r.questions).length
        < ((⌊((trackedTimes r.questions).sum : ℚ) / (trackedTimes r.questions).length
          + 1 / 2⌋ : ℤ) : ℚ) + 1 / 2) := by
  refine ⟨mem_trackedTimes r.questions, reportPage_timeCount r, reportPage_avgTime_zero r, ?_⟩
  intro hn
  refine ⟨?_, ?_, ?_⟩
  · rw [reportPage_avgTime r (by omega), if_pos hn]
    exact JSNumber.round_div_of_lt _ _ (Nat.pos_of_ne_zero hn)
      (length_le_sum_trackedTimes r.questions) hsum
  · have := Int.floor_le
      (((trackedTimes r.questions).sum : ℚ) / (trackedTimes r.questions).length + 1 / 2)
    linarith
  · have := Int.lt_floor_add_one
      (((trackedTimes r.questions).sum : ℚ) / (trackedTimes r.questions).length + 1 / 2)
    linarith

/-- C22, witness: for times 3, 0, 4, none and -2 the count is 2 and the average 4. -/
theorem avg_time_spec_witness :
    (trackedTimes timedResults.questions).sum < 2 ^ 52 ∧
    (ReportPage timedResults).timeCount = 2 ∧
    (ReportPage timedResults).avgTime = JSNumber.fin 4 := by
  have hs : (trackedTimes timedResults.questions).sum < 2 ^ 52 := by
    rw [trackedTimes_timedResults]
    decide
  have hn : (trackedTimes timedResults.questions).length ≠ 0 := by
    rw [trackedTimes_timedResults]
    decide
  have h := avg_time_spec timedResults hs
  refine ⟨hs, ?_, ?_⟩
  · rw [h.2.1, trackedTimes_timedResults]
    rfl
  · have hf : ⌊(([3, 4] : List Int).sum : ℚ) / ([3, 4] : List Int).length + 1 / 2⌋ = 4 := by
      rw [Int.floor_eq_iff]
      constructor <;> norm_num
    rw [(h.2.2.2 hn).1, trackedTimes_timedResults, hf]
    norm_num

/-! ## Navigation -/

theorem mem_filtered (s : State) (filter : String) (i : Int) (h : i ∈ filtered s filter) :
    0 ≤ i ∧ i < (s.questions.length : Int) := by
  have hall : ∀ j : Int, j ∈ (List.range s.questions.length).map Int.ofNat →
      0 ≤ j ∧ j < (s.questions.length : Int) := by
    intro j hj
    rw [List.mem_map] at hj
    obtain ⟨n, hn, rfl⟩ := hj
    rw [List.mem_range] at hn
    exact ⟨Int.ofNat_nonneg n, Int.ofNat_lt.mpr hn⟩
  unfold filtered at h
  simp only at h
  split at h
  · exact hall i (List.mem_filter.mp h).1
  · split at h
    · exact hall i (List.mem_filter.mp h).1
    · split at h
      · exact hall i (List.mem_filter.mp h).1
      · split at h
        · exact hall i (List.mem_filter.mp h).1
        · split at h
          · exact hall i (List.mem_filter.mp h).1
          · exact hall i h

/-- C23. In a state whose current question is an index of the list of questions, each
navigation of the page keeps it so: `handleNextQuestion` dispatches `SET_CURRENT_QUESTION`
with `currentQuestion + 1` only when `currentQuestion < len - 1` and nothing otherwise,
`handlePreviousQuestion` dispatches it with `currentQuestion - 1` only when
`currentQuestion > 0`, and every index that `QuestionNav` offers, under every filter, lies in
`[0, len)`; after each of these navigations `currentQuestion` lies in `[0, len)`. -/
theorem navigation_in_range (s : State) (h0 : 0 ≤ s.currentQuestion)
    (h1 : s.currentQuestion < (s.questions.length : Int)) :
    (s.currentQuestion < (s.questions.length : Int) - 1 →
      handleNextQuestion s = [Action.SET_CURRENT_QUESTION (s.currentQuestion + 1)]) ∧
    (¬ s.currentQuestion < (s.questions.length : Int) - 1 → handleNextQuestion s = []) ∧
    (s.currentQuestion > 0 →
      handlePreviousQuestion s = [Action.SET_CURRENT_QUESTION (s.currentQuestion - 1)]) ∧
    (¬ s.currentQuestion > 0 → handlePreviousQuestion s = []) ∧
    inRange s.questions.length (dispatchAll s (handleNextQuestion s)).currentQuestion = true ∧
    inRange s.questions.length (dispatchAll s (handlePreviousQuestion s)).currentQuestion
      = true ∧
    (∀ (filter : String) (i : Int), i ∈ filtered s filter →
      inRange s.questions.length i = true ∧
      inRange s.questions.length
        (dispatchAll s (handleQuestionNavigation i)).currentQuestion = true) ∧
    (dispatchAll s (handleNextQuestion s)).questions = s.questions ∧
    (dispatchAll s (handlePreviousQuestion s)).questions = s.questions := by
  refine ⟨?_, ?_, ?_, ?_, ?_, ?_, ?_, ?_, ?_⟩
  · intro h
    unfold handleNextQuestion
    rw [if_pos h]
  · intro h
    unfold handleNextQuestion
    rw [if_neg h]
  · intro h
    unfold handlePreviousQuestion
    rw [if_pos h]
  · intro h
    unfold handlePreviousQuestion
    rw [if_neg h]
  · unfold handleNextQuestion
    by_cases h : s.currentQuestion < (s.questions.length : Int) - 1
    · rw [if_pos h]
      show inRange s.questions.length (s.currentQuestion + 1) = true
      unfold inRange
      rw [decide_eq_true_iff]
      omega
    · rw [if_neg h]
      show inRange s.questions.length s.currentQuestion = true
      unfold inRange
      rw [decide_eq_true_iff]
      exact ⟨h0, h1⟩
  · unfold handlePreviousQuestion
    by_cases h : s.currentQuestion > 0
    · rw [if_pos h]
      show inRange s.questions.length (s.currentQuestion - 1) = true
      unfold inRange
      rw [decide_eq_true_iff]
      omega
    · rw [if_neg h]
      show inRange s.questions.length s.currentQuestion = true
      unfold inRange
      rw [decide_eq_true_iff]
      exact ⟨h0, h1⟩
  · intro filter i hi
    have hr : inRange s.questions.length i = true := by
      unfold inRange
      rw [decide_eq_true_iff]
      exact mem_filtered s filter i hi
    exact ⟨hr, hr⟩
  · unfold handleNextQuestion
    split <;> rfl
  · unfold handlePreviousQuestion
    split <;> rfl

/-- C23, witness: at the second of three questions, next goes to the third, previous to the
first, and the questions offered are 0, 1 and 2. -/
theorem navigation_in_range_witness :
    (0 : Int) ≤ atSecondQuestion.currentQuestion ∧
    atSecondQuestion.currentQuestion < (atSecondQuestion.questions.length : Int) ∧
    handleNextQuestion atSecondQuestion = [Action.SET_CURRENT_QUESTION 2] ∧
    handlePreviousQuestion atSecondQuestion = [Action.SET_CURRENT_QUESTION 0] ∧
    filtered atSecondQuestion "all" = [0, 1, 2] ∧
    inRange atSecondQuestion.questions.length
      (dispatchAll atSecondQuestion (handleNextQuestion atSecondQuestion)).currentQuestion
      = true :=
  ⟨by decide, by decide, by decide, by decide, by decide,
    (navigation_in_range atSecondQuestion (by decide) (by decide)).2.2.2.2.1⟩

/-! ## A second render of the report -/

theorem reportPageAgain_matrix (r : Results) :
    (ReportPageAgain r).matrix =
      r.questions.foldl
        (fun m q => bumpCell m (categoryKey q) (difficultyKey q) q.is_correct)
        (ReportPage r).matrix :=
  aggregationPass_matrix r.questions (ReportPage r).matrix

theorem cell_reportPage (r : Results) (c d : String) :
    (ReportPage r).matrix.cell c d =
      ((buildMatrix (categoryList r.questions)).cell c d).map (fun cell =>
        { correct := cell.correct + r.questions.countP
            (fun q => decide (categoryKey q = c ∧ difficultyKey q = d) && q.is_correct)
          total := cell.total + r.questions.countP
            (fun q => decide (categoryKey q = c ∧ difficultyKey q = d)) }) := by
  rw [reportPage_matrix, cell_foldl_bumpCell]

/-- C24. A second render with the same questions runs the aggregation pass again on the
memoised matrix that the first render has filled: every cell is counted twice, its `correct`
and `total` are the double of what they were after the first pass, while the accuracies
shown stay the memoised ones. For the example of the specification the cell `Math`/`easy`
goes from 1 of 2 to 2 of 4. -/
theorem second_pass_doubles (r : Results) (c d : String) :
    (ReportPageAgain r).matrix.cell c d =
      ((ReportPage r).matrix.cell c d).map
        (fun cell => { correct := 2 * cell.correct, total := 2 * cell.total }) ∧
    (ReportPageAgain r).difficultyAccuracy = (ReportPage r).difficultyAccuracy ∧
    (ReportPageAgain r).categoryAccuracy = (ReportPage r).categoryAccuracy ∧
    (ReportPage exampleResults).matrix.cell "Math" "easy" = some { correct := 1, total := 2 } ∧
    (ReportPageAgain exampleResults).matrix.cell "Math" "easy" =
      some { correct := 2, total := 4 } := by
  refine ⟨?_, rfl, rfl, by decide, by decide⟩
  rw [reportPageAgain_matrix, cell_foldl_bumpCell, cell_reportPage, cell_buildMatrix]
  split
  · simp only [Option.map_some', Nat.zero_add, Option.some.injEq, Cell.mk.injEq]
    constructor <;> omega
  · rfl

end QuizApp
